import Mathlib

/-!
# Select statement result processing and Redis command preparation

A shallow embedding of

* `cql3/statements/select_statement.hh`: the result-processing path of the
  select statement (`updateLimitForQuery`, `makeExclusiveSliceBound`,
  `applySliceRestriction`, `process`, `processColumnFamily`, `addValue`,
  `execute_internal`);
* `redis/commands.cc`: `prepare` of the key/value commands and `execute` of `get`,
  `hget`, `ttl`, `exists`, `del` and `select`.

Java references that may be `null` are `Option`s, Java `int` is `Int` wrapped to
32 bits where arithmetic is done, thrown exceptions are the error side of
`Except`, as is a future that completes with an exception.  Classes whose code is not
part of the two files (restrictions, comparator, row grouping, storage operations) are
records of their methods.
-/

/-- Equality of outcomes is decidable when equality of errors and of values is. -/
instance instDecidableEqExcept {ε α : Type} [DecidableEq ε] [DecidableEq α] :
    DecidableEq (Except ε α)
  | .ok a, .ok b => if h : a = b then isTrue (by rw [h]) else isFalse (fun h2 => h (by cases h2; rfl))
  | .error a, .error b =>
    if h : a = b then isTrue (by rw [h]) else isFalse (fun h2 => h (by cases h2; rfl))
  | .ok _, .error _ => isFalse (fun h => by cases h)
  | .error _, .ok _ => isFalse (fun h => by cases h)

namespace cql3

/-! ## Data model -/

/-- A serialized value (`ByteBuffer` / `bytes`). -/
abbrev ByteBuffer := List UInt8

/-- A composite of serialized components (`Composite`). -/
abbrev Composite := List ByteBuffer

/-- The name of a storage cell (`CellName`). -/
abbrev CellName := List ByteBuffer

/-- The exceptions the result-processing path can raise. -/
inductive Exn where
  | InvalidRequestException (msg : String)
  | IndexOutOfBoundsException (index : Nat)
  | runtime_error (what : String)
  deriving DecidableEq, Repr

/-- Java `Integer.MAX_VALUE`. -/
def Integer.MAX_VALUE : Int := 2147483647

/-- Java `Integer.MIN_VALUE`. -/
def Integer.MIN_VALUE : Int := -2147483648

/-- Two's-complement wrap-around of Java `int` arithmetic. -/
def wrapInt (x : Int) : Int := (x + 2147483648) % 4294967296 - 2147483648

/-- The two ends of a slice (`Bound.START`, `Bound.END`). -/
inductive Bound where
  | START
  | END
  deriving DecidableEq, Repr

/-- The methods of `StatementRestrictions` used by the select statement, with the query
options already supplied. -/
structure StatementRestrictions where
  isNonCompositeSliceWithExclusiveBounds : Bool
  areRequestedBoundsInclusive : Bound → Bool
  getClusteringColumnsBounds : Bound → Except Exn (List Composite)
  usesSecondaryIndexing : Bool
  hasNoClusteringColumnsRestriction : Bool

/-- A storage cell: its name and its value. -/
structure Cell where
  name : CellName
  value : ByteBuffer
  deriving DecidableEq, Repr

/-- Method `updateLimitForQuery`: one more element is queried when the slice has exclusive
bounds, unless the limit is `Integer.MAX_VALUE`. -/
def updateLimitForQuery (restrictions : StatementRestrictions) (limit : Int) : Int :=
  if restrictions.isNonCompositeSliceWithExclusiveBounds && limit != Integer.MAX_VALUE
  then wrapInt (limit + 1)
  else limit

/-- The methods of the cell-name comparator (`CellNameType`) the statement calls. -/
structure CellNameType where
  compare : CellName → CellName → Int
  makeCellName : Composite → CellName

/-- The kind of a column (`ColumnDefinition.Kind`). -/
inductive Kind where
  | PARTITION_KEY
  | CLUSTERING_COLUMN
  | REGULAR
  | STATIC
  | COMPACT_VALUE
  deriving DecidableEq, Repr

/-- The methods of a column type (`def.type`) used by `addValue`. -/
structure AbstractType where
  isMultiCell : Bool
  serializeForNativeProtocol : List Cell → ByteBuffer

/-- A column of the schema, as referenced by the selection. -/
structure ColumnDefinition where
  name : String
  kind : Kind
  position : Nat
  type : AbstractType

/-- The interface of a grouped CQL row (`CQL3Row`); `getColumn` is also called with a
`null` name for the compact value. -/
structure CQL3Row where
  getClusteringColumn : Nat → Option ByteBuffer
  getColumn : Option String → Option Cell
  getMultiCellColumn : String → Option (List Cell)

/-- The result of grouping the cells of a partition (`CQL3Row.RowIterator`): the static
row, if any, and the rows the iterator yields, in iteration order. -/
structure RowIterator where
  getStaticRow : Option CQL3Row
  rows : List CQL3Row

/-- The partition-key validator: a `CompositeType` splits the key, any other type does
not. -/
inductive KeyValidator where
  | CompositeType (split : ByteBuffer → List ByteBuffer)
  | other

/-- The table metadata (`CFMetaData`): key validator, comparator, and the row grouping of
`comparator.CQL3RowBuilder(cfm, now).group`. -/
structure CFMetaData where
  getKeyValidator : KeyValidator
  comparator : CellNameType
  group : List Cell → RowIterator

/-- The columns of one partition as returned by storage (`ColumnFamily`). -/
structure ColumnFamily where
  metadata : CFMetaData
  getSortedColumns : List Cell

/-- A storage row (`org.apache.cassandra.db.Row`): the partition key and its columns,
`null` when no column matches. -/
structure Row where
  key : ByteBuffer
  cf : Option ColumnFamily

/-- One row of the result: `std::vector<bytes_opt>`. -/
abbrev result_row_type := List (Option ByteBuffer)

/-- The comparator type of post-query ordering: `std::function<bool(const T&, const T&)>`
over result rows. -/
abbrev ordering_comparator_type := result_row_type → result_row_type → Bool

/-- The rows of a result set, in order. -/
abbrev ResultSet := List result_row_type

/-- Modelled from the spec: the accumulator of result rows (`Selection.ResultSetBuilder`,
not among the sources).  Rows are accumulated in the order they are started, each one an
ordered sequence of output values; `current` is the row being filled. -/
structure ResultSetBuilder where
  resultSet : ResultSet
  current : Option result_row_type

/-- Modelled from the spec: `ResultSetBuilder.newRow` closes the row being filled, if
any, and starts an empty one. -/
def ResultSetBuilder.newRow (b : ResultSetBuilder) : ResultSetBuilder :=
  { resultSet := match b.current with
      | none => b.resultSet
      | some r => b.resultSet ++ [r]
    current := some [] }

/-- Modelled from the spec: `ResultSetBuilder.add(ByteBuffer)` appends one output value
(possibly `null`) to the row being filled. -/
def ResultSetBuilder.add (b : ResultSetBuilder) (v : Option ByteBuffer) : ResultSetBuilder :=
  { b with current := b.current.map (fun r => r ++ [v]) }

/-- Modelled from the spec: `ResultSetBuilder.add(Cell)` appends the value of the cell,
`null` when there is no cell. -/
def ResultSetBuilder.addCell (b : ResultSetBuilder) (c : Option Cell) : ResultSetBuilder :=
  b.add (c.map Cell.value)

/-- Modelled from the spec: `ResultSetBuilder.build` closes the row being filled and
returns the accumulated rows. -/
def ResultSetBuilder.build (b : ResultSetBuilder) : ResultSet :=
  match b.current with
  | none => b.resultSet
  | some r => b.resultSet ++ [r]

/-- The selection: its columns in declared order (`selection.getColumns()`). -/
structure Selection where
  getColumns : List ColumnDefinition

/-- Modelled from the spec: `selection.resultSetBuilder(now)` is an empty accumulator. -/
def Selection.resultSetBuilder (_sel : Selection) : ResultSetBuilder :=
  { resultSet := [], current := none }

/-- The fields of `select_statement` read by result processing.  A null
`_ordering_comparator` is `none`. -/
structure select_statement where
  cfm : CFMetaData
  selection : Selection
  restrictions : StatementRestrictions
  isReversed : Bool
  orderingComparator : Option ordering_comparator_type

/-- Method `makeExclusiveSliceBound`: `null` for an inclusive bound, otherwise the cell name of
the first clustering bound (`List.get(0)` fails on an empty list). -/
def makeExclusiveSliceBound (restrictions : StatementRestrictions) (bound : Bound)
    (type : CellNameType) : Except Exn (Option CellName) :=
  if restrictions.areRequestedBoundsInclusive bound then
    pure none
  else do
    let bounds ← restrictions.getClusteringColumnsBounds bound
    match bounds with
    | [] => throw (Exn.IndexOutOfBoundsException 0)
    | c :: _ => pure (some (type.makeCellName c))

/-- The predicate of the filter in `applySliceRestriction`. -/
def sliceRestrictionPredicate (type : CellNameType) (excludedStart excludedEnd : Option CellName)
    (c : Cell) : Bool :=
  !((match excludedStart with
      | none => false
      | some e => type.compare c.name e == 0)
    || (match excludedEnd with
      | none => false
      | some e => type.compare c.name e == 0))

/-- Method `applySliceRestriction`: drops the cells whose name equals an excluded bound. -/
def applySliceRestriction (s : select_statement) (cells : List Cell) :
    Except Exn (List Cell) := do
  let type := s.cfm.comparator
  let excludedStart ← makeExclusiveSliceBound s.restrictions Bound.START type
  let excludedEnd ← makeExclusiveSliceBound s.restrictions Bound.END type
  pure (cells.filter (sliceRestrictionPredicate type excludedStart excludedEnd))

/-- Method `addValue`: the value of column `d` in `row` is added to the row being filled: `null`
when there is no row, the serialized collection for a multi-cell type, the cell of the
column otherwise. -/
def addValue (result : ResultSetBuilder) (d : ColumnDefinition) (row : Option CQL3Row) :
    ResultSetBuilder :=
  match row with
  | none => result.add none
  | some row =>
    if d.type.isMultiCell then
      let cells := row.getMultiCellColumn d.name
      let buffer := match cells with
        | none => none
        | some cells => some (d.type.serializeForNativeProtocol cells)
      result.add buffer
    else
      result.addCell (row.getColumn (some d.name))

/-- Java array access `keyComponents[i]`, which throws when `i` is out of range. -/
def arrayGet (keyComponents : List ByteBuffer) (i : Nat) : Except Exn ByteBuffer :=
  match keyComponents[i]? with
  | some k => pure k
  | none => throw (Exn.IndexOutOfBoundsException i)

/-- The body of the loop over the selected columns in the static-row-only branch of
`processColumnFamily`. -/
def addStaticRowColumn (keyComponents : List ByteBuffer) (staticRow : Option CQL3Row)
    (result : ResultSetBuilder) (d : ColumnDefinition) : Except Exn ResultSetBuilder :=
  match d.kind with
  | Kind.PARTITION_KEY => do
    let k ← arrayGet keyComponents d.position
    pure (result.add (some k))
  | Kind.STATIC => pure (addValue result d staticRow)
  | _ => pure (result.add none)

/-- The body of the loop over the selected columns for one clustering row in
`processColumnFamily`. -/
def addRowColumn (keyComponents : List ByteBuffer) (staticRow : Option CQL3Row)
    (cql3Row : CQL3Row) (result : ResultSetBuilder) (d : ColumnDefinition) :
    Except Exn ResultSetBuilder :=
  match d.kind with
  | Kind.PARTITION_KEY => do
    let k ← arrayGet keyComponents d.position
    pure (result.add (some k))
  | Kind.CLUSTERING_COLUMN => pure (result.add (cql3Row.getClusteringColumn d.position))
  | Kind.COMPACT_VALUE => pure (result.addCell (cql3Row.getColumn none))
  | Kind.REGULAR => pure (addValue result d (some cql3Row))
  | Kind.STATIC => pure (addValue result d staticRow)

/-- The first step of `processColumnFamily`: the partition key split into its components
by a composite key validator, the key alone otherwise. -/
def keyComponentsOf (cfm : CFMetaData) (key : ByteBuffer) : List ByteBuffer :=
  match cfm.getKeyValidator with
  | KeyValidator.CompositeType split => split key
  | KeyValidator.other => [key]

/-- The second step of `processColumnFamily`: the sorted columns of the partition, passed
through `applySliceRestriction` when the slice has exclusive bounds. -/
def cellsToGroup (s : select_statement) (cf : ColumnFamily) : Except Exn (List Cell) :=
  if s.restrictions.isNonCompositeSliceWithExclusiveBounds then
    applySliceRestriction s cf.getSortedColumns
  else
    pure cf.getSortedColumns

/-- The condition of the static-row-only branch of `processColumnFamily`:
`staticRow != null && !iter.hasNext() && !restrictions.usesSecondaryIndexing()
&& restrictions.hasNoClusteringColumnsRestriction()`. -/
def staticRowOnlyCase (s : select_statement) (iter : RowIterator) : Bool :=
  iter.getStaticRow.isSome && iter.rows.isEmpty && !s.restrictions.usesSecondaryIndexing
    && s.restrictions.hasNoClusteringColumnsRestriction

/-- Method `processColumnFamily`: adds the result rows of one partition to `result`. -/
def processColumnFamily (s : select_statement) (key : ByteBuffer) (cf : ColumnFamily)
    (result : ResultSetBuilder) : Except Exn ResultSetBuilder := do
  let cfm := cf.metadata
  let keyComponents := keyComponentsOf cfm key
  let cells ← cellsToGroup s cf
  let iter := cfm.group cells
  let staticRow := iter.getStaticRow
  if staticRowOnlyCase s iter then
    s.selection.getColumns.foldlM (addStaticRowColumn keyComponents staticRow) result.newRow
  else
    iter.rows.foldlM
      (fun result cql3Row =>
        s.selection.getColumns.foldlM (addRowColumn keyComponents staticRow cql3Row)
          result.newRow)
      result

/-- Modelled from the spec: `orderResults` (not among the sources).  "if a post-query
ordering comparator was built, sort the full in-memory result set using it (stable, ties
broken by input order)".  The comparator is a strict "less than"; a row is inserted in
front of the first row that is not less than it. -/
def orderResults (s : select_statement) (cqlRows : ResultSet) : ResultSet :=
  match s.orderingComparator with
  | none => cqlRows
  | some less => cqlRows.insertionSort (fun a b => less b a = false)

/-- Modelled from the spec: `ResultSet.trim` (not among the sources), "trim to the
resolved limit": the rows beyond the first `limit` are removed. -/
def trim (cqlRows : ResultSet) (limit : Int) : ResultSet :=
  if (cqlRows.length : Int) > limit then cqlRows.take limit.toNat else cqlRows

/-- The loop of `process` over the storage rows: a row without columns is skipped. -/
def processRows (s : select_statement) (rows : List Row) (result : ResultSetBuilder) :
    Except Exn ResultSetBuilder :=
  rows.foldlM
    (fun result row =>
      match row.cf with
      | none => pure result
      | some cf => processColumnFamily s row.key cf result)
    result

/-- Method `process`: assembles the rows of all partitions, orders them, reverses them when the
statement is reversed and trims to the limit. -/
def process (s : select_statement) (rows : List Row) (limit : Int) : Except Exn ResultSet := do
  let result ← processRows s rows s.selection.resultSetBuilder
  let cqlRows := result.build
  let cqlRows := orderResults s cqlRows
  let cqlRows := if s.isReversed then cqlRows.reverse else cqlRows
  pure (trim cqlRows limit)

/-- The bound values of one execution (`QueryOptions`). -/
structure QueryOptions where
  values : List (Option ByteBuffer)

/-- Modelled from the spec: the read plan of one execution (`query::read_command`, the
"slice specification"), of which the per-partition row cap is kept. -/
structure read_command where
  row_limit : Int
  deriving DecidableEq, Repr

/-- The collaborators of an execution, all declared in the header or external to the
statement: the bound-term count (`get_bound_terms`), limit resolution (`get_limit`), the
plan builder for a given row cap, and the storage read, which completes with the rows of
the matching partitions or fails. -/
structure Collaborators where
  get_bound_terms : Nat
  get_limit : QueryOptions → Except Exn Int
  make_read_command : QueryOptions → Int → read_command
  execute_read : read_command → Except Exn (List Row)

/-- The outcome of one execution: the result set or the error, and the read commands that
were issued to storage. -/
structure Execution where
  result : Except Exn ResultSet
  reads : List read_command

/-- Modelled from the spec: `select_statement::execute` (declared in the header; its body
is in `select_statement.cc`, not among the sources).  "given a prepared statement and
concrete bound values, validate arity (fails if supplied value count ≠ bound-term count),
build the plan, invoke the storage collaborator's asynchronous read operation", then
assemble, order, reverse and trim the rows; "storage collaborator failure propagates"; "a
limit of zero short-circuits before invoking storage" and "returns an empty result set
rather than an error".  The row cap of the plan is `updateLimitForQuery`. -/
def execute (s : select_statement) (env : Collaborators) (options : QueryOptions) :
    Execution :=
  if options.values.length ≠ env.get_bound_terms then
    { result := .error (Exn.InvalidRequestException "Invalid amount of bind variables"),
      reads := [] }
  else
    match env.get_limit options with
    | .error e => { result := .error e, reads := [] }
    | .ok limit =>
      if limit = 0 then
        { result := .ok [], reads := [] }
      else
        let cmd := env.make_read_command options (updateLimitForQuery s.restrictions limit)
        match env.execute_read cmd with
        | .error e => { result := .error e, reads := [cmd] }
        | .ok rows => { result := process s rows limit, reads := [cmd] }

/-- Method `execute_internal`, as compiled: it is not implemented and throws
`std::runtime_error("not implemented")` whatever the statement and the bound values; no
read is issued. -/
def execute_internal (_s : select_statement) (_db : Collaborators)
    (_options : QueryOptions) : Execution :=
  { result := .error (Exn.runtime_error "not implemented"), reads := [] }

end cql3

namespace redis

/-! ## Redis commands -/

/-- A byte string (`bytes`). -/
abbrev bytes := List UInt8

/-- A parsed request: the command name and its arguments. -/
structure request where
  _command : bytes
  _args : List bytes
  deriving DecidableEq, Repr

/-- The number of arguments, `request::arguments_size`. -/
def request.arguments_size (req : request) : Nat := req._args.length

/-- The argument `req._args[i]`, for an index within the arguments. -/
def request.arg (req : request) (i : Nat) (h : i < req.arguments_size) : bytes :=
  req._args.get ⟨i, h⟩

/-- The exceptions raised by `prepare`, with the arguments of their constructors. -/
inductive redis_exception where
  | wrong_arguments_exception (expected : Nat) (given : Nat) (command : bytes)
  | wrong_number_of_arguments_exception (command : bytes)
  | invalid_arguments_exception (command : bytes)
  | invalid_db_index_exception
  deriving DecidableEq, Repr

/-- The `get` command. -/
structure commands.get where
  _name : bytes
  _key : bytes
  deriving DecidableEq, Repr

/-- The `ttl` command. -/
structure commands.ttl where
  _name : bytes
  _key : bytes
  deriving DecidableEq, Repr

/-- The `strlen` command. -/
structure commands.strlen where
  _name : bytes
  _key : bytes
  deriving DecidableEq, Repr

/-- The `hget` command. -/
structure commands.hget where
  _name : bytes
  _key : bytes
  _field : bytes
  deriving DecidableEq, Repr

/-- The `echo` command. -/
structure commands.echo where
  _name : bytes
  _str : bytes
  deriving DecidableEq, Repr

/-- The `set` command, as built by its two constructors: without and with a
time-to-live. -/
inductive commands.set where
  | mk3 (name key data : bytes)
  | mk4 (name key data : bytes) (ttl : Int)
  deriving DecidableEq, Repr

/-- Function `get::prepare`: one argument, the key. -/
def commands.get.prepare (req : request) : Except redis_exception commands.get :=
  if h : req.arguments_size ≠ 1 then
    throw (redis_exception.wrong_arguments_exception 1 req.arguments_size req._command)
  else
    pure { _name := req._command, _key := req.arg 0 (by omega) }

/-- Function `ttl::prepare`: one argument, the key. -/
def commands.ttl.prepare (req : request) : Except redis_exception commands.ttl :=
  if h : req.arguments_size ≠ 1 then
    throw (redis_exception.wrong_arguments_exception 1 req.arguments_size req._command)
  else
    pure { _name := req._command, _key := req.arg 0 (by omega) }

/-- Function `strlen::prepare`: one argument, the key. -/
def commands.strlen.prepare (req : request) : Except redis_exception commands.strlen :=
  if h : req.arguments_size ≠ 1 then
    throw (redis_exception.wrong_arguments_exception 1 req.arguments_size req._command)
  else
    pure { _name := req._command, _key := req.arg 0 (by omega) }

/-- Function `hget::prepare`: two arguments, the key and the field. -/
def commands.hget.prepare (req : request) : Except redis_exception commands.hget :=
  if h : req.arguments_size ≠ 2 then
    throw (redis_exception.wrong_arguments_exception 2 req.arguments_size req._command)
  else
    pure { _name := req._command, _key := req.arg 0 (by omega), _field := req.arg 1 (by omega) }

/-- Function `echo::prepare`: one argument, the string to echo. -/
def commands.echo.prepare (req : request) : Except redis_exception commands.echo :=
  if h : req.arguments_size ≠ 1 then
    throw (redis_exception.wrong_arguments_exception 1 req.arguments_size req._command)
  else
    pure { _name := req._command, _str := req.arg 0 (by omega) }

/-- Function `::tolower` in the "C" locale: only `A`..`Z` are changed. -/
def tolower (c : UInt8) : UInt8 :=
  if 65 ≤ c ∧ c ≤ 90 then c + 32 else c

/-- Function `isspace` in the "C" locale: space, and `\t \n \v \f \r`. -/
def isspace (c : UInt8) : Bool :=
  c = 32 ∨ (9 ≤ c ∧ c ≤ 13)

/-- Function `isdigit`: the decimal digits `0`..`9`. -/
def isdigit (c : UInt8) : Bool :=
  48 ≤ c ∧ c ≤ 57

/-- Constant `LONG_MAX` of a 64-bit `long`. -/
def LONG_MAX : Int := 9223372036854775807

/-- Constant `LONG_MIN` of a 64-bit `long`. -/
def LONG_MIN : Int := -9223372036854775808

/-- The value of a run of decimal digits. -/
def digitsValue (digits : List UInt8) : Nat :=
  digits.foldl (fun acc d => acc * 10 + (d.toNat - 48)) 0

/-- The exceptions of `std::stol`. -/
inductive stol_error where
  | invalid_argument
  | out_of_range
  deriving DecidableEq, Repr

/-- Function `std::stol` in base 10: leading white space is skipped, an optional sign is read, then
the longest run of digits; what follows the digits is ignored.  No digit is
`std::invalid_argument`, a value outside `long` is `std::out_of_range`. -/
def stol (str : bytes) : Except stol_error Int :=
  let s := str.dropWhile isspace
  let negative := s.head? = some 45
  let s := if s.head? = some 45 ∨ s.head? = some 43 then s.tail else s
  let digits := s.takeWhile isdigit
  if digits = [] then
    throw stol_error.invalid_argument
  else
    let value : Int := if negative then -(digitsValue digits : Int) else (digitsValue digits : Int)
    if value < LONG_MIN ∨ LONG_MAX < value then
      throw stol_error.out_of_range
    else
      pure value

/-- Function `set::prepare`: key and value, or key, value, `EX` and the time-to-live. -/
def commands.set.prepare (req : request) : Except redis_exception commands.set :=
  if h2 : req.arguments_size = 2 then
    pure (commands.set.mk3 req._command (req.arg 0 (by omega)) (req.arg 1 (by omega)))
  else if h4 : req.arguments_size = 4 then
    let opt := (req.arg 2 (by omega)).map tolower
    if opt = [101, 120] then
      match stol (req.arg 3 (by omega)) with
      | .error _ => throw (redis_exception.invalid_arguments_exception req._command)
      | .ok ttl =>
        pure (commands.set.mk4 req._command (req.arg 0 (by omega)) (req.arg 1 (by omega)) ttl)
    else
      throw (redis_exception.invalid_arguments_exception req._command)
  else
    throw (redis_exception.invalid_arguments_exception req._command)

end redis

namespace cql3

/-! ## Definitions used to state the properties -/

/-- A bound `b` was requested exclusive with value `boundOf b`, and the name of `c`
compares equal to it. -/
def equalsExclusiveBound (r : StatementRestrictions) (type : CellNameType)
    (boundOf : Bound → Composite) (c : Cell) : Prop :=
  (r.areRequestedBoundsInclusive Bound.START = false ∧
      type.compare c.name (type.makeCellName (boundOf Bound.START)) = 0) ∨
  (r.areRequestedBoundsInclusive Bound.END = false ∧
      type.compare c.name (type.makeCellName (boundOf Bound.END)) = 0)

instance (r : StatementRestrictions) (type : CellNameType) (boundOf : Bound → Composite) :
    DecidablePred (equalsExclusiveBound r type boundOf) :=
  fun _ => by unfold equalsExclusiveBound; infer_instance

/-- The value of column `d` in a grouped row: the serialized collection for a multi-cell
type, the value of the column's cell otherwise, `null` when the row has neither. -/
def columnValue (d : ColumnDefinition) (row : CQL3Row) : Option ByteBuffer :=
  if d.type.isMultiCell then
    (row.getMultiCellColumn d.name).map d.type.serializeForNativeProtocol
  else
    (row.getColumn (some d.name)).map Cell.value

/-- The value expected for a selected column in the static-row-only case: the key
component at its position for a partition-key column, its value in the static row for a
static column, `null` for any other kind. -/
def expectedStaticRowValue (keyComponents : List ByteBuffer) (staticRow : CQL3Row)
    (d : ColumnDefinition) : Option ByteBuffer :=
  match d.kind with
  | Kind.PARTITION_KEY => keyComponents[d.position]?
  | Kind.STATIC => columnValue d staticRow
  | Kind.CLUSTERING_COLUMN => none
  | Kind.REGULAR => none
  | Kind.COMPACT_VALUE => none

/-- The value expected for a selected column in a clustering row: the key component at
its position for a partition-key column, the clustering value at its position for a
clustering column, the row's cell for a regular column, the unnamed cell for the compact
value, and for a static column its value in the static row, `null` without static row. -/
def expectedRowValue (keyComponents : List ByteBuffer) (staticRow : Option CQL3Row)
    (cql3Row : CQL3Row) (d : ColumnDefinition) : Option ByteBuffer :=
  match d.kind with
  | Kind.PARTITION_KEY => keyComponents[d.position]?
  | Kind.CLUSTERING_COLUMN => cql3Row.getClusteringColumn d.position
  | Kind.REGULAR => columnValue d cql3Row
  | Kind.COMPACT_VALUE => (cql3Row.getColumn none).map Cell.value
  | Kind.STATIC =>
    match staticRow with
    | none => none
    | some row => columnValue d row

/-- The rows after assembly, ordering and reversal, before trimming. -/
def orderedRows (s : select_statement) (rows : List Row) : Except Exn ResultSet := do
  let result ← processRows s rows s.selection.resultSetBuilder
  let cqlRows := orderResults s result.build
  pure (if s.isReversed then cqlRows.reverse else cqlRows)

/-! ## A table with partition key `id`, clustering column `ts`, a regular column `v` and a
static column `st` -/

/-- A single-cell column type. -/
def scenario.bytesType : AbstractType :=
  { isMultiCell := false, serializeForNativeProtocol := fun _ => [] }

/-- The partition key column `id`. -/
def scenario.id : ColumnDefinition :=
  { name := "id", kind := Kind.PARTITION_KEY, position := 0, type := scenario.bytesType }

/-- The clustering column `ts`. -/
def scenario.ts : ColumnDefinition :=
  { name := "ts", kind := Kind.CLUSTERING_COLUMN, position := 0, type := scenario.bytesType }

/-- The regular column `v`. -/
def scenario.v : ColumnDefinition :=
  { name := "v", kind := Kind.REGULAR, position := 0, type := scenario.bytesType }

/-- The static column `st`. -/
def scenario.st : ColumnDefinition :=
  { name := "st", kind := Kind.STATIC, position := 0, type := scenario.bytesType }

/-- Lexicographic comparison of two byte sequences. -/
def scenario.compareBytes : List UInt8 → List UInt8 → Int
  | [], [] => 0
  | [], _ :: _ => -1
  | _ :: _, [] => 1
  | a :: as, b :: bs =>
    if a < b then -1 else if b < a then 1 else scenario.compareBytes as bs

/-- Cell names are compared by the bytes of their components. -/
def scenario.comparator : CellNameType :=
  { compare := fun a b => scenario.compareBytes a.flatten b.flatten
    makeCellName := fun c => c }

/-- The row of one cell of `v`: its clustering value is the cell name. -/
def scenario.rowOf (c : Cell) : CQL3Row :=
  { getClusteringColumn := fun i => c.name[i]?
    getColumn := fun _ => some c
    getMultiCellColumn := fun _ => none }

/-- Grouping: the cell with the empty name is the static row, every other cell is a row. -/
def scenario.group (cells : List Cell) : RowIterator :=
  { getStaticRow := (cells.find? (fun c => c.name.isEmpty)).map scenario.rowOf
    rows := (cells.filter (fun c => !c.name.isEmpty)).map scenario.rowOf }

/-- The metadata of the table. -/
def scenario.cfm : CFMetaData :=
  { getKeyValidator := KeyValidator.other
    comparator := scenario.comparator
    group := scenario.group }

/-- The restrictions of a query without clustering restriction. -/
def scenario.noRestriction : StatementRestrictions :=
  { isNonCompositeSliceWithExclusiveBounds := false
    areRequestedBoundsInclusive := fun _ => true
    getClusteringColumnsBounds := fun _ => pure []
    usesSecondaryIndexing := false
    hasNoClusteringColumnsRestriction := true }

/-- The restrictions of `ts > 10`: an exclusive start bound, no end bound. -/
def scenario.tsAbove10 : StatementRestrictions :=
  { isNonCompositeSliceWithExclusiveBounds := true
    areRequestedBoundsInclusive := fun b => b != Bound.START
    getClusteringColumnsBounds := fun b =>
      match b with
      | Bound.START => pure [[[10]]]
      | Bound.END => pure []
    usesSecondaryIndexing := false
    hasNoClusteringColumnsRestriction := false }

/-- A partition of the table: the cells of `v` at the given `ts`, each with value `ts`. -/
def scenario.partition (key : UInt8) (tss : List UInt8) : Row :=
  { key := [key]
    cf := some { metadata := scenario.cfm
                 getSortedColumns := tss.map (fun t => { name := [[t]], value := [t] }) } }

/-- The statement `SELECT ts ... WHERE id = 5 AND ts > 10 ORDER BY ts DESC`. -/
def scenario.selectReversed : select_statement :=
  { cfm := scenario.cfm
    selection := { getColumns := [scenario.ts] }
    restrictions := scenario.tsAbove10
    isReversed := true
    orderingComparator := none }

/-- The `ts` of a result row of `SELECT ts`. -/
def scenario.tsOf (row : result_row_type) : Nat :=
  match row with
  | some (t :: _) :: _ => t.toNat
  | _ => 0

/-- The statement `SELECT ts ... WHERE id IN (1, 2) ORDER BY ts ASC`. -/
def scenario.selectIn : select_statement :=
  { cfm := scenario.cfm
    selection := { getColumns := [scenario.ts] }
    restrictions := scenario.noRestriction
    isReversed := false
    orderingComparator := some (fun a b => decide (scenario.tsOf a < scenario.tsOf b)) }

/-- The statement `SELECT id, st, ts, v` without restriction on the clustering column. -/
def scenario.selectAll : select_statement :=
  { cfm := scenario.cfm
    selection := { getColumns := [scenario.id, scenario.st, scenario.ts, scenario.v] }
    restrictions := scenario.noRestriction
    isReversed := false
    orderingComparator := none }

/-- A partition with only a static cell. -/
def scenario.staticOnly : ColumnFamily :=
  { metadata := scenario.cfm, getSortedColumns := [{ name := [], value := [42] }] }

/-- The statement `SELECT ts ... WHERE id IN (1, 2) ORDER BY ts DESC`: the comparator of
`ts` together with the reversed flag. -/
def scenario.selectInDesc : select_statement :=
  { scenario.selectIn with isReversed := true }

/-- A partition with the static cell 42 and cells of `v` at `ts` 11 and 12. -/
def scenario.staticAndRows : ColumnFamily :=
  { metadata := scenario.cfm
    getSortedColumns := [{ name := [], value := [42] }, { name := [[11]], value := [11] },
      { name := [[12]], value := [12] }] }

/-- Collaborators for the scenario: one bound term, the limit, which is the first bound
value; every read returns partition `id = 5`, which holds `ts` 11, 12, 13. -/
def scenario.env : Collaborators :=
  { get_bound_terms := 1
    get_limit := fun options =>
      match options.values with
      | [some [n]] => pure (n.toNat : Int)
      | _ => throw (Exn.InvalidRequestException "Invalid limit")
    make_read_command := fun _ cap => { row_limit := cap }
    execute_read := fun _ => pure [scenario.partition 5 [11, 12, 13]] }

end cql3

namespace redis

/-- A decimal integer written in full: an optional sign followed by one or more
decimal digits and nothing else. -/
def isInteger (str : bytes) : Bool :=
  let body := if str.head? = some 45 ∨ str.head? = some 43 then str.tail else str
  body ≠ [] ∧ body.all isdigit

/-- The string `str` starts with the integer `value` of type `long`: optional white space,
an optional sign, a non-empty run of decimal digits that is not followed by another digit,
and the signed value of the run lies within `long`. -/
def startsWithLong (str : bytes) (value : Int) : Prop :=
  ∃ ws sign digits rest, str = ws ++ sign ++ digits ++ rest ∧
    (∀ c ∈ ws, isspace c = true) ∧
    (sign = [] ∨ sign = [43] ∨ sign = [45]) ∧
    digits ≠ [] ∧ (∀ c ∈ digits, isdigit c = true) ∧
    (∀ c, rest.head? = some c → isdigit c = false) ∧
    value = (if sign = [45] then -(digitsValue digits : Int) else (digitsValue digits : Int)) ∧
    LONG_MIN ≤ value ∧ value ≤ LONG_MAX

/-- The byte string equals `ex` when ASCII case is ignored. -/
def equalsIgnoreCaseEx (opt : bytes) : Prop :=
  opt = [101, 120] ∨ opt = [69, 120] ∨ opt = [101, 88] ∨ opt = [69, 88]

/-! ## Execution of the Redis commands -/

/-- The result of a read of a string value (`strings_result`, declared in
`redis/query_utils.hh`), as the record of the methods the commands call; `ttl_count` is
`ttl().count()`. -/
structure strings_result where
  has_result : Bool
  result : bytes
  has_ttl : Bool
  ttl_count : Int
  deriving DecidableEq, Repr

/-- Modelled from the spec: the options of a connection (`redis_options`, declared in
`redis/options.hh`, not among the sources): the keyspace name the commands run against and
the total number of databases. -/
structure redis_options where
  _ks_name : String
  _total_redis_db_count : Nat
  deriving DecidableEq, Repr

/-- Modelled from the spec: `redis_options::get_total_redis_db_count` returns the
configured number of databases. -/
def redis_options.get_total_redis_db_count (options : redis_options) : Nat :=
  options._total_redis_db_count

/-- Modelled from the spec: `redis_options::set_keyspace_name` replaces the keyspace
name. -/
def redis_options.set_keyspace_name (options : redis_options) (ks_name : String) :
    redis_options :=
  { options with _ks_name := ks_name }

/-- The failure of a storage operation (an exceptional future). -/
structure storage_failure where
  what : String
  deriving DecidableEq, Repr

/-- The storage operations the commands call (`redis::read_strings`,
`redis::read_strings_from_hash`, `redis::delete_objects`), for a given storage proxy: each
one completes with its value or fails. -/
structure storage_proxy where
  read_strings : redis_options → bytes → Except storage_failure strings_result
  read_strings_from_hash : redis_options → bytes → bytes → Except storage_failure strings_result
  delete_objects : redis_options → List bytes → Except storage_failure Unit

/-- The replies built by the commands, named after the factory functions of
`redis_message`. -/
inductive redis_message where
  | nil
  | make_strings_result (result : bytes)
  | number (n : Int)
  | ok
  deriving DecidableEq, Repr

/-- Method `get::execute`: the stored string, or the nil string when the key does not
exist. -/
def commands.get.execute (proxy : storage_proxy) (options : redis_options)
    (cmd : commands.get) : Except storage_failure redis_message := do
  let result ← proxy.read_strings options cmd._key
  if result.has_result then
    pure (redis_message.make_strings_result result.result)
  else
    pure redis_message.nil

/-- Method `hget::execute`: the stored string of the field, or the nil string when there
is none. -/
def commands.hget.execute (proxy : storage_proxy) (options : redis_options)
    (cmd : commands.hget) : Except storage_failure redis_message := do
  let result ← proxy.read_strings_from_hash options cmd._key cmd._field
  if result.has_result then
    pure (redis_message.make_strings_result result.result)
  else
    pure redis_message.nil

/-- Method `ttl::execute`: the time-to-live of the key, -1 without time-to-live, -2 when the
key does not exist. -/
def commands.ttl.execute (proxy : storage_proxy) (options : redis_options)
    (cmd : commands.ttl) : Except storage_failure redis_message := do
  let result ← proxy.read_strings options cmd._key
  if result.has_result then
    if result.has_ttl then
      pure (redis_message.number result.ttl_count)
    else
      pure (redis_message.number (-1))
  else
    pure (redis_message.number (-2))

/-- The `exists` command: its keys and the counter `_count` of the keys found. -/
structure commands.exists where
  _name : bytes
  _keys : List bytes
  _count : Nat
  deriving DecidableEq, Repr

/-- The constructor `exists::exists(name, keys)`.  Modelled from the spec: the member
initializer of `_count` is in `redis/commands.hh`, not among the sources; a command that
has not been executed has counted no key. -/
def commands.exists.make (name : bytes) (keys : List bytes) : commands.exists :=
  { _name := name, _keys := keys, _count := 0 }

/-- Function `exists::prepare`: at least one key. -/
def commands.exists.prepare (req : request) : Except redis_exception commands.exists :=
  if req.arguments_size < 1 then
    throw (redis_exception.wrong_arguments_exception 1 req.arguments_size req._command)
  else
    pure (commands.exists.make req._command req._args)

/-- The body of the loop of `exists::execute` for one key: the key is read and counted
when it has a result. -/
def commands.exists.count_key (proxy : storage_proxy) (options : redis_options)
    (cmd : commands.exists) (key : bytes) : Except storage_failure commands.exists := do
  let result ← proxy.read_strings options key
  if result.has_result then
    pure { cmd with _count := cmd._count + 1 }
  else
    pure cmd

/-- Method `exists::execute`: the keys are read one after the other, then the counter is
the reply.  The command is returned with its counter updated. -/
def commands.exists.execute (proxy : storage_proxy) (options : redis_options)
    (cmd : commands.exists) : Except storage_failure (redis_message × commands.exists) := do
  let cmd ← cmd._keys.foldlM (commands.exists.count_key proxy options) cmd
  pure (redis_message.number cmd._count, cmd)

/-- The `del` command. -/
structure commands.del where
  _name : bytes
  _keys : List bytes
  deriving DecidableEq, Repr

/-- Function `del::prepare`: at least one key. -/
def commands.del.prepare (req : request) : Except redis_exception commands.del :=
  if req.arguments_size = 0 then
    throw (redis_exception.wrong_number_of_arguments_exception req._command)
  else
    pure { _name := req._command, _keys := req._args }

/-- Method `del::execute`: the keys are deleted and the reply is the number of keys of the
command. -/
def commands.del.execute (proxy : storage_proxy) (options : redis_options)
    (cmd : commands.del) : Except storage_failure redis_message := do
  let size := cmd._keys.length
  proxy.delete_objects options cmd._keys
  pure (redis_message.number size)

/-- The `select` command: the index of the database, a `long`. -/
structure commands.select where
  _name : bytes
  _index : Int
  deriving DecidableEq, Repr

/-- Function `select::prepare`: one argument, parsed by `std::stol`. -/
def commands.select.prepare (req : request) : Except redis_exception commands.select :=
  if h : req.arguments_size ≠ 1 then
    throw (redis_exception.wrong_arguments_exception 1 req.arguments_size req._command)
  else
    match stol (req.arg 0 (by omega)) with
    | .error _ => throw redis_exception.invalid_db_index_exception
    | .ok index => pure { _name := req._command, _index := index }

/-- The conversion `static_cast<size_t>` of a `long` (64 bits). -/
def static_cast_size_t (x : Int) : Nat :=
  (x % 18446744073709551616).toNat

/-- The text of `sprint("REDIS_%zu", n)`: the prefix followed by `n` in decimal. -/
def sprint_REDIS (n : Nat) : String :=
  "REDIS_" ++ toString n

/-- Method `select::execute`: the reply or the exception, and the options after the call
(the keyspace name is set only when the index is valid). -/
def commands.select.execute (options : redis_options) (cmd : commands.select) :
    Except redis_exception redis_message × redis_options :=
  if cmd._index < 0 ∨ static_cast_size_t cmd._index ≥ options.get_total_redis_db_count then
    (throw redis_exception.invalid_db_index_exception, options)
  else
    (pure redis_message.ok,
      options.set_keyspace_name (sprint_REDIS (static_cast_size_t cmd._index)))

/-! ## A storage with the single key `k` -/

/-- A storage holding the string `v` with a time-to-live of 100 under the key `k`, and the
same string under the field `f` of the hash `h`; every operation succeeds. -/
def scenario.storage : storage_proxy :=
  { read_strings := fun _ key =>
      if key = [107] then pure ⟨true, [118], true, 100⟩ else pure ⟨false, [], false, 0⟩
    read_strings_from_hash := fun _ key field =>
      if key = [104] ∧ field = [102] then pure ⟨true, [118], false, 0⟩
      else pure ⟨false, [], false, 0⟩
    delete_objects := fun _ _ => pure () }

/-- The options of a connection to database 0 of 16. -/
def scenario.options : redis_options :=
  { _ks_name := "REDIS_0", _total_redis_db_count := 16 }

end redis

namespace cql3

/-! ## Limit for the storage query -/

/-- C1 (as stated) fails at `Integer.MAX_VALUE`: for a non-composite slice with exclusive
bounds the limit `Integer.MAX_VALUE` is returned unchanged, not `limit + 1` (neither the
mathematical sum nor the wrapped Java sum). -/
theorem updateLimitForQuery_max_value_unchanged :
    scenario.tsAbove10.isNonCompositeSliceWithExclusiveBounds = true ∧
    updateLimitForQuery scenario.tsAbove10 Integer.MAX_VALUE = Integer.MAX_VALUE ∧
    updateLimitForQuery scenario.tsAbove10 Integer.MAX_VALUE ≠ Integer.MAX_VALUE + 1 ∧
    updateLimitForQuery scenario.tsAbove10 Integer.MAX_VALUE ≠ wrapInt (Integer.MAX_VALUE + 1) := by
  decide

/-- C1 (amended): for every Java `int` limit, `updateLimitForQuery` returns `limit + 1`
when the restrictions are a non-composite slice with exclusive bounds and the limit is not
`Integer.MAX_VALUE`; it returns the limit unchanged when the limit is `Integer.MAX_VALUE`
and when the restrictions are not such a slice. -/
theorem updateLimitForQuery_spec (r : StatementRestrictions) (limit : Int)
    (hlo : Integer.MIN_VALUE ≤ limit) (hhi : limit ≤ Integer.MAX_VALUE) :
    (r.isNonCompositeSliceWithExclusiveBounds = true → limit ≠ Integer.MAX_VALUE →
      updateLimitForQuery r limit = limit + 1) ∧
    (limit = Integer.MAX_VALUE → updateLimitForQuery r limit = limit) ∧
    (r.isNonCompositeSliceWithExclusiveBounds = false → updateLimitForQuery r limit = limit) := by
  unfold Integer.MIN_VALUE at hlo
  unfold Integer.MAX_VALUE at hhi
  refine ⟨?_, ?_, ?_⟩
  · intro hr hne
    have hne2 : limit ≠ 2147483647 := hne
    simp only [updateLimitForQuery, hr, Bool.true_and, bne_iff_ne, ne_eq, hne,
      not_false_eq_true, ↓reduceIte, wrapInt]
    omega
  · intro hmax
    simp [updateLimitForQuery, hmax]
  · intro hr
    simp [updateLimitForQuery, hr]

/-- Witness of `updateLimitForQuery_spec`: the row cap of `ts > 10 LIMIT 3` is 4. -/
theorem updateLimitForQuery_spec_witness :
    updateLimitForQuery scenario.tsAbove10 3 = 3 + 1 :=
  (updateLimitForQuery_spec scenario.tsAbove10 3 (by decide) (by decide)).1 rfl (by decide)

/-! ## Exclusive slice bounds -/

theorem makeExclusiveSliceBound_ok (r : StatementRestrictions) (b : Bound)
    (type : CellNameType) (boundOf : Bound → Composite) (rest : Bound → List Composite)
    (hb : r.areRequestedBoundsInclusive b = false →
      r.getClusteringColumnsBounds b = .ok (boundOf b :: rest b)) :
    makeExclusiveSliceBound r b type =
      .ok (if r.areRequestedBoundsInclusive b then none
           else some (type.makeCellName (boundOf b))) := by
  cases h : r.areRequestedBoundsInclusive b
  · simp [makeExclusiveSliceBound, h, hb h, pure, Except.pure, bind, Except.bind]
  · simp [makeExclusiveSliceBound, h, pure, Except.pure]

theorem applySliceRestriction_eq_filter (s : select_statement) (cells : List Cell)
    (boundOf : Bound → Composite) (rest : Bound → List Composite)
    (hb : ∀ b, s.restrictions.areRequestedBoundsInclusive b = false →
      s.restrictions.getClusteringColumnsBounds b = .ok (boundOf b :: rest b)) :
    applySliceRestriction s cells = .ok (cells.filter
      (fun c => decide (¬ equalsExclusiveBound s.restrictions s.cfm.comparator boundOf c))) := by
  simp only [applySliceRestriction, bind, Except.bind, pure, Except.pure,
    makeExclusiveSliceBound_ok _ _ _ boundOf rest (hb _)]
  congr 1
  apply List.filter_congr
  intro c _
  by_cases h1 : s.cfm.comparator.compare c.name
      (s.cfm.comparator.makeCellName (boundOf Bound.START)) = 0 <;>
  by_cases h2 : s.cfm.comparator.compare c.name
      (s.cfm.comparator.makeCellName (boundOf Bound.END)) = 0 <;>
  cases hS : s.restrictions.areRequestedBoundsInclusive Bound.START <;>
  cases hE : s.restrictions.areRequestedBoundsInclusive Bound.END <;>
  simp [sliceRestrictionPredicate, equalsExclusiveBound, hS, hE, h1, h2]

/-- C2: when every bound requested exclusive has a value (`boundOf`),
`applySliceRestriction` returns an output that (1) is the input with exactly the cells
equal to an exclusive bound removed, the others kept in order, (2) is a sublist of the
input, (3) contains no cell whose name compares equal to an exclusive bound, (4) contains
every other cell as many times as the input, and (5) is the whole input when both bounds
are inclusive. -/
theorem applySliceRestriction_spec (s : select_statement) (cells : List Cell)
    (boundOf : Bound → Composite) (rest : Bound → List Composite)
    (hb : ∀ b, s.restrictions.areRequestedBoundsInclusive b = false →
      s.restrictions.getClusteringColumnsBounds b = .ok (boundOf b :: rest b)) :
    ∃ out, applySliceRestriction s cells = .ok out ∧
      out = cells.filter
        (fun c => decide (¬ equalsExclusiveBound s.restrictions s.cfm.comparator boundOf c)) ∧
      out.Sublist cells ∧
      (∀ c ∈ out, ¬ equalsExclusiveBound s.restrictions s.cfm.comparator boundOf c) ∧
      (∀ c, ¬ equalsExclusiveBound s.restrictions s.cfm.comparator boundOf c →
        out.count c = cells.count c) ∧
      ((∀ b, s.restrictions.areRequestedBoundsInclusive b = true) → out = cells) := by
  refine ⟨_, applySliceRestriction_eq_filter s cells boundOf rest hb, rfl,
    List.filter_sublist _, ?_, ?_, ?_⟩
  · intro c hc
    simpa using (List.mem_filter.mp hc).2
  · intro c hc
    rw [List.count_filter]
    simpa using hc
  · intro hall
    apply List.filter_eq_self.mpr
    intro c _
    simp [equalsExclusiveBound, hall]

/-- Witness of `applySliceRestriction_spec`: for `ts > 10` the cell at `ts = 10` is
removed and the cells at 11, 12, 13 are kept in order. -/
theorem applySliceRestriction_spec_witness :
    ∃ out, applySliceRestriction scenario.selectReversed
        [⟨[[10]], [10]⟩, ⟨[[11]], [11]⟩, ⟨[[12]], [12]⟩, ⟨[[13]], [13]⟩] = .ok out ∧
      out = [⟨[[11]], [11]⟩, ⟨[[12]], [12]⟩, ⟨[[13]], [13]⟩] := by
  obtain ⟨out, h1, h2, _⟩ := applySliceRestriction_spec scenario.selectReversed
    [⟨[[10]], [10]⟩, ⟨[[11]], [11]⟩, ⟨[[12]], [12]⟩, ⟨[[13]], [13]⟩]
    (fun _ => [[10]]) (fun _ => [])
    (by intro b; cases b <;> decide)
  exact ⟨out, h1, by rw [h2]; decide⟩

/-! ## Rows of one partition -/

theorem arrayGet_ok (keyComponents : List ByteBuffer) (i : Nat) (h : i < keyComponents.length) :
    ∃ k, keyComponents[i]? = some k ∧ arrayGet keyComponents i = .ok k := by
  refine ⟨keyComponents[i], List.getElem?_eq_getElem h, ?_⟩
  simp [arrayGet, List.getElem?_eq_getElem h, pure, Except.pure]

theorem addValue_some (result : ResultSetBuilder) (d : ColumnDefinition) (row : CQL3Row) :
    addValue result d (some row) = result.add (columnValue d row) := by
  unfold addValue columnValue
  cases hm : d.type.isMultiCell
  · simp [ResultSetBuilder.addCell]
  · cases hc : row.getMultiCellColumn d.name <;> simp [hc]

theorem addStaticRowColumn_ok (keyComponents : List ByteBuffer) (staticRow : CQL3Row)
    (rs : ResultSet) (cur : result_row_type) (d : ColumnDefinition)
    (hkey : d.kind = Kind.PARTITION_KEY → d.position < keyComponents.length) :
    addStaticRowColumn keyComponents (some staticRow) ⟨rs, some cur⟩ d =
      .ok ⟨rs, some (cur ++ [expectedStaticRowValue keyComponents staticRow d])⟩ := by
  unfold addStaticRowColumn expectedStaticRowValue
  cases hk : d.kind
  · obtain ⟨k, hk1, hk2⟩ := arrayGet_ok keyComponents d.position (hkey hk)
    simp [hk1, hk2, bind, Except.bind, pure, Except.pure, ResultSetBuilder.add]
  all_goals simp [addValue_some, pure, Except.pure, ResultSetBuilder.add]

theorem foldlM_addStaticRowColumn (keyComponents : List ByteBuffer) (staticRow : CQL3Row)
    (cols : List ColumnDefinition) (rs : ResultSet) (cur : result_row_type)
    (hkey : ∀ d ∈ cols, d.kind = Kind.PARTITION_KEY → d.position < keyComponents.length) :
    cols.foldlM (addStaticRowColumn keyComponents (some staticRow)) ⟨rs, some cur⟩ =
      .ok ⟨rs, some (cur ++ cols.map (expectedStaticRowValue keyComponents staticRow))⟩ := by
  induction cols generalizing cur with
  | nil => simp [pure, Except.pure]
  | cons d ds ih =>
    have hd := addStaticRowColumn_ok keyComponents staticRow rs cur d
      (hkey d (List.mem_cons_self _ _))
    have ih2 := ih (cur ++ [expectedStaticRowValue keyComponents staticRow d])
      (fun e he => hkey e (List.mem_cons_of_mem _ he))
    simp only [List.foldlM_cons, hd, bind, Except.bind, ih2, List.map_cons,
      List.append_assoc, List.singleton_append]

theorem addRowColumn_ok (keyComponents : List ByteBuffer) (staticRow : Option CQL3Row)
    (cql3Row : CQL3Row) (rs : ResultSet) (cur : result_row_type) (d : ColumnDefinition)
    (hkey : d.kind = Kind.PARTITION_KEY → d.position < keyComponents.length) :
    addRowColumn keyComponents staticRow cql3Row ⟨rs, some cur⟩ d =
      .ok ⟨rs, some (cur ++ [expectedRowValue keyComponents staticRow cql3Row d])⟩ := by
  unfold addRowColumn expectedRowValue
  cases hk : d.kind
  · obtain ⟨k, hk1, hk2⟩ := arrayGet_ok keyComponents d.position (hkey hk)
    simp [hk1, hk2, bind, Except.bind, pure, Except.pure, ResultSetBuilder.add]
  · simp [pure, Except.pure, ResultSetBuilder.add]
  · simp [addValue_some, pure, Except.pure, ResultSetBuilder.add]
  · cases staticRow with
    | none => simp [addValue, pure, Except.pure, ResultSetBuilder.add]
    | some row => simp [addValue_some, pure, Except.pure, ResultSetBuilder.add]
  · simp [pure, Except.pure, ResultSetBuilder.add, ResultSetBuilder.addCell]

theorem foldlM_addRowColumn (keyComponents : List ByteBuffer) (staticRow : Option CQL3Row)
    (cql3Row : CQL3Row) (cols : List ColumnDefinition) (rs : ResultSet) (cur : result_row_type)
    (hkey : ∀ d ∈ cols, d.kind = Kind.PARTITION_KEY → d.position < keyComponents.length) :
    cols.foldlM (addRowColumn keyComponents staticRow cql3Row) ⟨rs, some cur⟩ =
      .ok ⟨rs, some (cur ++ cols.map (expectedRowValue keyComponents staticRow cql3Row))⟩ := by
  induction cols generalizing cur with
  | nil => simp [pure, Except.pure]
  | cons d ds ih =>
    have hd := addRowColumn_ok keyComponents staticRow cql3Row rs cur d
      (hkey d (List.mem_cons_self _ _))
    have ih2 := ih (cur ++ [expectedRowValue keyComponents staticRow cql3Row d])
      (fun e he => hkey e (List.mem_cons_of_mem _ he))
    simp only [List.foldlM_cons, hd, bind, Except.bind, ih2, List.map_cons,
      List.append_assoc, List.singleton_append]

theorem newRow_eq (b : ResultSetBuilder) : b.newRow = ⟨b.build, some []⟩ := by
  cases b with
  | mk rs cur => cases cur <;> rfl

theorem foldlM_rows (keyComponents : List ByteBuffer) (staticRow : Option CQL3Row)
    (cols : List ColumnDefinition) (rows : List CQL3Row) (b : ResultSetBuilder)
    (hkey : rows ≠ [] →
      ∀ d ∈ cols, d.kind = Kind.PARTITION_KEY → d.position < keyComponents.length) :
    ∃ b2, rows.foldlM
        (fun result cql3Row =>
          cols.foldlM (addRowColumn keyComponents staticRow cql3Row) result.newRow) b = .ok b2 ∧
      b2.build = b.build ++
        rows.map (fun r => cols.map (expectedRowValue keyComponents staticRow r)) := by
  induction rows generalizing b with
  | nil => exact ⟨b, by simp [pure, Except.pure], by simp⟩
  | cons r rs ih =>
    have hk := hkey (List.cons_ne_nil _ _)
    have h1 := foldlM_addRowColumn keyComponents staticRow r cols b.build [] hk
    obtain ⟨b2, h2, h3⟩ := ih
      ⟨b.build, some ([] ++ cols.map (expectedRowValue keyComponents staticRow r))⟩
      (fun _ => hk)
    refine ⟨b2, ?_, ?_⟩
    · simp only [List.foldlM_cons, newRow_eq, h1, bind, Except.bind]
      exact h2
    · rw [h3]
      simp [ResultSetBuilder.build]

theorem processColumnFamily_unfold (s : select_statement) (key : ByteBuffer)
    (cf : ColumnFamily) (result : ResultSetBuilder) (cells : List Cell)
    (hcells : cellsToGroup s cf = .ok cells) :
    processColumnFamily s key cf result =
      if staticRowOnlyCase s (cf.metadata.group cells) then
        s.selection.getColumns.foldlM
          (addStaticRowColumn (keyComponentsOf cf.metadata key)
            (cf.metadata.group cells).getStaticRow) result.newRow
      else
        (cf.metadata.group cells).rows.foldlM
          (fun result cql3Row =>
            s.selection.getColumns.foldlM
              (addRowColumn (keyComponentsOf cf.metadata key)
                (cf.metadata.group cells).getStaticRow cql3Row) result.newRow)
          result := by
  unfold processColumnFamily
  rw [hcells]
  rfl

/-- C3: for a partition whose grouped cells have a static row and no clustering row,
queried without secondary indexing and without clustering-column restriction (the
selected partition-key columns having a position among the key components),
`processColumnFamily` succeeds and adds exactly one row to the result: one value per
selected column, in selection order, a partition-key column yielding the key component at
its position, a static column its value in the static row, any other kind `null`. -/
theorem processColumnFamily_static_row_only (s : select_statement) (key : ByteBuffer)
    (cf : ColumnFamily) (result : ResultSetBuilder) (cells : List Cell) (staticRow : CQL3Row)
    (hcells : cellsToGroup s cf = .ok cells)
    (hstatic : (cf.metadata.group cells).getStaticRow = some staticRow)
    (hrows : (cf.metadata.group cells).rows = [])
    (hindex : s.restrictions.usesSecondaryIndexing = false)
    (hclustering : s.restrictions.hasNoClusteringColumnsRestriction = true)
    (hkey : ∀ d ∈ s.selection.getColumns, d.kind = Kind.PARTITION_KEY →
      d.position < (keyComponentsOf cf.metadata key).length) :
    ∃ result2 row, processColumnFamily s key cf result = .ok result2 ∧
      result2.build = result.build ++ [row] ∧
      row.length = s.selection.getColumns.length ∧
      row = s.selection.getColumns.map
        (expectedStaticRowValue (keyComponentsOf cf.metadata key) staticRow) ∧
      (∀ d ∈ s.selection.getColumns, d.kind = Kind.PARTITION_KEY →
        ∃ k, (keyComponentsOf cf.metadata key)[d.position]? = some k ∧
          expectedStaticRowValue (keyComponentsOf cf.metadata key) staticRow d = some k) := by
  have hcase : staticRowOnlyCase s (cf.metadata.group cells) = true := by
    simp [staticRowOnlyCase, hstatic, hrows, hindex, hclustering]
  refine ⟨⟨result.build, some ([] ++ s.selection.getColumns.map
    (expectedStaticRowValue (keyComponentsOf cf.metadata key) staticRow))⟩, _, ?_, ?_, ?_, rfl, ?_⟩
  · rw [processColumnFamily_unfold s key cf result cells hcells, hcase, hstatic, newRow_eq]
    simp only [↓reduceIte]
    exact foldlM_addStaticRowColumn _ staticRow _ _ _ hkey
  · simp [ResultSetBuilder.build]
  · simp
  · intro d hd hk
    have hlt := hkey d hd hk
    exact ⟨(keyComponentsOf cf.metadata key)[d.position], List.getElem?_eq_getElem hlt,
      by simp [expectedStaticRowValue, hk, List.getElem?_eq_getElem hlt]⟩

/-- Witness of `processColumnFamily_static_row_only`: the partition `id = 5` holding only
the static cell 42 gives the single row `(5, 42, null, null)` for `SELECT id, st, ts, v`. -/
theorem processColumnFamily_static_row_only_witness :
    ∃ result2 row,
      processColumnFamily scenario.selectAll [5] scenario.staticOnly
        scenario.selectAll.selection.resultSetBuilder = .ok result2 ∧
      result2.build = [row] ∧ row = [some [5], some [42], none, none] := by
  obtain ⟨result2, row, h1, h2, _, h4, _⟩ :=
    processColumnFamily_static_row_only scenario.selectAll [5] scenario.staticOnly
      scenario.selectAll.selection.resultSetBuilder [{ name := [], value := [42] }]
      (scenario.rowOf { name := [], value := [42] }) rfl rfl rfl rfl rfl
      (by intro d hd hk; exact Nat.lt_of_le_of_lt (by
            simp only [scenario.selectAll, List.mem_cons, List.mem_singleton,
              List.not_mem_nil, or_false] at hd
            rcases hd with h | h | h | h <;> rw [h] <;> decide) (Nat.lt_succ_self 0))
  exact ⟨result2, row, h1, h2, by rw [h4]; rfl⟩

/-- C4: for a partition that is not in the static-row-only case (the selected
partition-key columns having a position among the key components), `processColumnFamily`
succeeds and adds exactly one result row per clustering row, in iteration order; each row
has one value per selected column and its i-th value is the one of the i-th selected
column: key component, clustering value, cell of the row, or value in the static row
(`null` without static row). -/
theorem processColumnFamily_clustering_rows (s : select_statement) (key : ByteBuffer)
    (cf : ColumnFamily) (result : ResultSetBuilder) (cells : List Cell)
    (hcells : cellsToGroup s cf = .ok cells)
    (hcase : staticRowOnlyCase s (cf.metadata.group cells) = false)
    (hkey : ∀ d ∈ s.selection.getColumns, d.kind = Kind.PARTITION_KEY →
      d.position < (keyComponentsOf cf.metadata key).length) :
    ∃ result2 added, processColumnFamily s key cf result = .ok result2 ∧
      result2.build = result.build ++ added ∧
      added.length = (cf.metadata.group cells).rows.length ∧
      added = (cf.metadata.group cells).rows.map (fun cql3Row =>
        s.selection.getColumns.map
          (expectedRowValue (keyComponentsOf cf.metadata key)
            (cf.metadata.group cells).getStaticRow cql3Row)) ∧
      (∀ row ∈ added, row.length = s.selection.getColumns.length) ∧
      (∀ d ∈ s.selection.getColumns, d.kind = Kind.PARTITION_KEY →
        ∃ k, (keyComponentsOf cf.metadata key)[d.position]? = some k ∧
          ∀ cql3Row, expectedRowValue (keyComponentsOf cf.metadata key)
            (cf.metadata.group cells).getStaticRow cql3Row d = some k) := by
  obtain ⟨b2, h2, h3⟩ := foldlM_rows (keyComponentsOf cf.metadata key)
    (cf.metadata.group cells).getStaticRow s.selection.getColumns
    (cf.metadata.group cells).rows result (fun _ => hkey)
  refine ⟨b2, _, ?_, h3, ?_, rfl, ?_, ?_⟩
  · rw [processColumnFamily_unfold s key cf result cells hcells, hcase]
    simpa using h2
  · simp
  · intro row hrow
    obtain ⟨r, _, hr⟩ := List.mem_map.mp hrow
    rw [← hr]
    simp
  · intro d hd hk
    have hlt := hkey d hd hk
    exact ⟨(keyComponentsOf cf.metadata key)[d.position], List.getElem?_eq_getElem hlt,
      fun _ => by simp [expectedRowValue, hk, List.getElem?_eq_getElem hlt]⟩

/-- Witness of `processColumnFamily_clustering_rows`: the partition `id = 5` with static
cell 42 and rows at `ts` 11 and 12 gives the rows `(5, 42, 11, 11)` and `(5, 42, 12, 12)`
for `SELECT id, st, ts, v`. -/
theorem processColumnFamily_clustering_rows_witness :
    ∃ result2 added,
      processColumnFamily scenario.selectAll [5] scenario.staticAndRows
        scenario.selectAll.selection.resultSetBuilder = .ok result2 ∧
      result2.build = added ∧
      added = [[some [5], some [42], some [11], some [11]],
               [some [5], some [42], some [12], some [12]]] := by
  obtain ⟨result2, added, h1, h2, _, h4, _⟩ :=
    processColumnFamily_clustering_rows scenario.selectAll [5] scenario.staticAndRows
      scenario.selectAll.selection.resultSetBuilder scenario.staticAndRows.getSortedColumns
      rfl rfl
      (by intro d hd hk; exact Nat.lt_of_le_of_lt (by
            simp only [scenario.selectAll, List.mem_cons, List.mem_singleton,
              List.not_mem_nil, or_false] at hd
            rcases hd with h | h | h | h <;> rw [h] <;> decide) (Nat.lt_succ_self 0))
  exact ⟨result2, added, h1, h2, by rw [h4]; rfl⟩

/-! ## Ordering, reversal and trimming -/

theorem trim_eq_take (cqlRows : ResultSet) (limit : Int) (h : 0 ≤ limit) :
    trim cqlRows limit = cqlRows.take limit.toNat := by
  unfold trim
  split
  · rfl
  · rename_i hle
    rw [List.take_of_length_le]
    omega

theorem process_eq_orderedRows (s : select_statement) (rows : List Row) (limit : Int) :
    process s rows limit =
      match orderedRows s rows with
      | .error e => .error e
      | .ok cqlRows => .ok (trim cqlRows limit) := by
  unfold process orderedRows
  cases processRows s rows s.selection.resultSetBuilder <;> rfl

/-- C5: for every list of storage rows, statement (reversed or not) and limit `N ≥ 0`:
when assembling the rows fails, `process` fails the same way; otherwise the result of
`process` is exactly the first `min N total` rows of the sequence obtained after ordering
and reversal, so it has at most `N` rows and is a prefix of that sequence. -/
theorem process_trims_to_limit (s : select_statement) (rows : List Row) (limit : Int)
    (hlimit : 0 ≤ limit) :
    (∀ e, orderedRows s rows = .error e → process s rows limit = .error e) ∧
    (∀ cqlRows, orderedRows s rows = .ok cqlRows →
      ∃ out, process s rows limit = .ok out ∧
        out = cqlRows.take (min limit.toNat cqlRows.length) ∧
        (out.length : Int) ≤ limit ∧
        out.length = min limit.toNat cqlRows.length ∧
        out <+: cqlRows ∧
        (∀ i, i < out.length → out[i]? = cqlRows[i]?)) := by
  refine ⟨?_, ?_⟩
  · intro e he
    rw [process_eq_orderedRows, he]
  · intro cqlRows hc
    have hmin : cqlRows.take (min limit.toNat cqlRows.length) = cqlRows.take limit.toNat := by
      rw [List.take_eq_take]
      simp
    refine ⟨cqlRows.take limit.toNat, ?_, hmin.symm, ?_, ?_, List.take_prefix _ _, ?_⟩
    · rw [process_eq_orderedRows, hc]
      simp only [trim_eq_take _ _ hlimit]
    · rw [List.length_take]
      omega
    · rw [List.length_take]
    · intro i hi
      rw [List.length_take] at hi
      rw [List.getElem?_take]
      simp only [ite_eq_left_iff, not_lt]
      omega

/-- Witness of `process_trims_to_limit`: four rows, reversed, limit 3. -/
theorem process_trims_to_limit_witness :
    orderedRows scenario.selectReversed [scenario.partition 5 [10, 11, 12, 13, 14]] =
        .ok [[some [14]], [some [13]], [some [12]], [some [11]]] ∧
      ∃ out, process scenario.selectReversed [scenario.partition 5 [10, 11, 12, 13, 14]] 3
          = .ok out ∧
        out = [[some [14]], [some [13]], [some [12]]] := by
  refine ⟨rfl, ?_⟩
  obtain ⟨out, h1, h2, _⟩ :=
    (process_trims_to_limit scenario.selectReversed
      [scenario.partition 5 [10, 11, 12, 13, 14]] 3 (by decide)).2
      [[some [14]], [some [13]], [some [12]], [some [11]]] rfl
  exact ⟨out, h1, by rw [h2]; rfl⟩

theorem process_of_processRows (s : select_statement) (rows : List Row) (limit : Int)
    (result : ResultSetBuilder)
    (hrows : processRows s rows s.selection.resultSetBuilder = .ok result) (hlimit : 0 ≤ limit) :
    process s rows limit =
      .ok ((if s.isReversed then (orderResults s result.build).reverse
            else orderResults s result.build).take limit.toNat) := by
  unfold process
  rw [hrows]
  simp only [bind, Except.bind, pure, Except.pure, trim_eq_take _ _ hlimit]

/-- C6 (as stated) fails on the compiled `execute_internal`: with the limit bound to zero
it returns no result set but the error `std::runtime_error("not implemented")`. -/
theorem execute_internal_limit_zero_is_error :
    scenario.env.get_limit { values := [some [0]] } = .ok 0 ∧
    (execute_internal scenario.selectReversed scenario.env { values := [some [0]] }).result =
      .error (Exn.runtime_error "not implemented") ∧
    (execute_internal scenario.selectReversed scenario.env { values := [some [0]] }).result ≠
      .ok [] := by
  decide

/-- C6 (amended): for every prepared select statement and bound values of the expected
number that resolve the limit to zero, `execute` returns the empty result set, not an
error, and issues no read to storage; `execute_internal`, which is not implemented, issues
no read either, and raises `std::runtime_error("not implemented")` instead of returning a
result set. -/
theorem execute_limit_zero (s : select_statement) (env : Collaborators)
    (options : QueryOptions) (harity : options.values.length = env.get_bound_terms)
    (hlimit : env.get_limit options = .ok 0) :
    (execute s env options).result = .ok [] ∧
    (execute s env options).reads = [] ∧
    (execute_internal s env options).result = .error (Exn.runtime_error "not implemented") ∧
    (execute_internal s env options).reads = [] := by
  refine ⟨?_, ?_, rfl, rfl⟩
  · simp [execute, harity, hlimit]
  · simp [execute, harity, hlimit]

/-- Witness of `execute_limit_zero`: the limit bound to 0 in the scenario; with the limit
bound to 2 the same statement reads once, with the row cap 3, and returns two rows. -/
theorem execute_limit_zero_witness :
    scenario.env.get_limit { values := [some [0]] } = .ok 0 ∧
    (execute scenario.selectReversed scenario.env { values := [some [0]] }).result = .ok [] ∧
    (execute scenario.selectReversed scenario.env { values := [some [0]] }).reads = [] ∧
    (execute scenario.selectReversed scenario.env { values := [some [2]] }).result =
      .ok [[some [13]], [some [12]]] ∧
    (execute scenario.selectReversed scenario.env { values := [some [2]] }).reads =
      [{ row_limit := 3 }] :=
  have h := execute_limit_zero scenario.selectReversed scenario.env { values := [some [0]] }
    rfl rfl
  ⟨rfl, h.1, h.2.1, rfl, rfl⟩

/-- C7: for a statement without post-query ordering comparator, whose rows are assembled
as `result`, and a limit `N ≥ 0`: with the reversed flag set `process` returns the first
`N` rows of the reversed assembled sequence, without the flag the first `N` rows of the
assembled sequence itself.  In particular the rows at `ts` 11, 12, 13 of a reversed
statement with limit 3 give `[13, 12, 11]`. -/
theorem process_reversed (s : select_statement) (rows : List Row) (limit : Int)
    (result : ResultSetBuilder) (hcomparator : s.orderingComparator = none)
    (hrows : processRows s rows s.selection.resultSetBuilder = .ok result)
    (hlimit : 0 ≤ limit) :
    (s.isReversed = true →
      process s rows limit = .ok (result.build.reverse.take limit.toNat)) ∧
    (s.isReversed = false →
      process s rows limit = .ok (result.build.take limit.toNat)) ∧
    process scenario.selectReversed [scenario.partition 5 [11, 12, 13]] 3 =
      .ok [[some [13]], [some [12]], [some [11]]] := by
  have h := process_of_processRows s rows limit result hrows hlimit
  have ho : orderResults s result.build = result.build := by
    simp [orderResults, hcomparator]
  rw [ho] at h
  refine ⟨?_, ?_, rfl⟩
  · intro hr
    simpa [hr] using h
  · intro hr
    simpa [hr] using h

/-- Witness of `process_reversed`: the rows at `ts` 11, 12, 13, 14 of the reversed
statement with limit 3 give `[14, 13, 12]`. -/
theorem process_reversed_witness :
    process scenario.selectReversed [scenario.partition 5 [10, 11, 12, 13, 14]] 3 =
      .ok [[some [14]], [some [13]], [some [12]]] :=
  (process_reversed scenario.selectReversed [scenario.partition 5 [10, 11, 12, 13, 14]] 3
    ⟨[[some [11]], [some [12]], [some [13]]], some [some [14]]⟩ rfl rfl (by decide)).1 rfl

/-- C8 (as stated) fails for a statement that carries a comparator and is reversed: for
`id IN (1, 2) ORDER BY ts DESC LIMIT 2` over partitions with `ts` {5, 9} and {3, 7} the
result is `[9, 7]`, not the first two rows `[3, 5]` of the sequence sorted with the
comparator. -/
theorem process_comparator_reversed_not_sorted_head :
    scenario.selectInDesc.orderingComparator.isSome = true ∧
    processRows scenario.selectInDesc [scenario.partition 1 [5, 9], scenario.partition 2 [3, 7]]
        scenario.selectInDesc.selection.resultSetBuilder =
      .ok ⟨[[some [5]], [some [9]], [some [3]]], some [some [7]]⟩ ∧
    orderResults scenario.selectInDesc [[some [5]], [some [9]], [some [3]], [some [7]]] =
      [[some [3]], [some [5]], [some [7]], [some [9]]] ∧
    process scenario.selectInDesc [scenario.partition 1 [5, 9], scenario.partition 2 [3, 7]] 2 =
      .ok [[some [9]], [some [7]]] ∧
    process scenario.selectInDesc [scenario.partition 1 [5, 9], scenario.partition 2 [3, 7]] 2 ≠
      .ok ((orderResults scenario.selectInDesc
        [[some [5]], [some [9]], [some [3]], [some [7]]]).take 2) := by
  refine ⟨rfl, rfl, rfl, rfl, ?_⟩
  decide

/-- C8 (amended): for a statement with a post-query ordering comparator `less`, rows
assembled as `result` and a limit `N ≥ 0`, `process` sorts the assembled rows of all
partitions, reverses the sorted rows when the statement is reversed, and then trims: the
result is the first `N` rows of the sorted (and, if reversed, reversed) sequence.  The
sorted sequence is a permutation of the assembled rows, is stable (two rows in input
order, the second not less than the first, keep that order), and is ordered by the
comparator when `less` is a strict weak ordering.  In particular partitions with `ts`
{5, 9} and {3, 7}, ascending order and limit 2 give `[3, 5]`. -/
theorem process_post_query_ordering (s : select_statement) (rows : List Row) (limit : Int)
    (result : ResultSetBuilder) (less : ordering_comparator_type)
    (hcomparator : s.orderingComparator = some less)
    (hrows : processRows s rows s.selection.resultSetBuilder = .ok result)
    (hlimit : 0 ≤ limit) :
    ∃ sorted : ResultSet,
      process s rows limit =
        .ok ((if s.isReversed then sorted.reverse else sorted).take limit.toNat) ∧
      sorted.Perm result.build ∧
      (∀ a b, less b a = false → [a, b].Sublist result.build → [a, b].Sublist sorted) ∧
      ((∀ a b, less a b = true → less b a = false) →
        (∀ a b c, less b a = false → less c b = false → less c a = false) →
        sorted.Pairwise (fun a b => less b a = false)) ∧
      process scenario.selectIn [scenario.partition 1 [5, 9], scenario.partition 2 [3, 7]] 2 =
        .ok [[some [3]], [some [5]]] := by
  refine ⟨result.build.insertionSort (fun a b => less b a = false), ?_,
    List.perm_insertionSort _ _, ?_, ?_, rfl⟩
  · rw [process_of_processRows s rows limit result hrows hlimit]
    simp [orderResults, hcomparator]
  · intro a b hab hsub
    exact List.pair_sublist_insertionSort hab hsub
  · intro hasymm htrans
    haveI : IsTotal result_row_type (fun a b => less b a = false) :=
      ⟨fun a b => by
        cases hba : less b a
        · exact Or.inl rfl
        · exact Or.inr (hasymm b a hba)⟩
    haveI : IsTrans result_row_type (fun a b => less b a = false) :=
      ⟨fun a b c hab hbc => htrans a b c hab hbc⟩
    exact List.sorted_insertionSort (fun a b => less b a = false) result.build

/-- Witness of `process_post_query_ordering`: `id IN (1, 2) ORDER BY ts ASC LIMIT 3` over
partitions with `ts` {5, 9} and {3, 7} gives `[3, 5, 7]`. -/
theorem process_post_query_ordering_witness :
    ∃ sorted : ResultSet,
      process scenario.selectIn [scenario.partition 1 [5, 9], scenario.partition 2 [3, 7]] 3 =
        .ok (sorted.take 3) ∧
      sorted.Perm [[some [5]], [some [9]], [some [3]], [some [7]]] := by
  obtain ⟨sorted, h1, h2, _⟩ :=
    process_post_query_ordering scenario.selectIn
      [scenario.partition 1 [5, 9], scenario.partition 2 [3, 7]] 3
      ⟨[[some [5]], [some [9]], [some [3]]], some [some [7]]⟩
      (fun a b => decide (scenario.tsOf a < scenario.tsOf b)) rfl rfl (by decide)
  exact ⟨sorted, h1, h2⟩

/-! ## The static-row-only branch -/

/-- C13: `processColumnFamily` takes the single-row branch exactly when the grouped cells
have a static row, there is no clustering row, the query uses no secondary indexing and
there is no clustering-column restriction: under these four conditions it adds one row,
built from the static row; when one of them fails it adds one row per clustering row.  For
a partition with a static row and no clustering row where secondary indexing is used or a
clustering restriction exists, the result is returned unchanged: no row is added. -/
theorem processColumnFamily_branch (s : select_statement) (key : ByteBuffer)
    (cf : ColumnFamily) (result : ResultSetBuilder) (cells : List Cell)
    (hcells : cellsToGroup s cf = .ok cells)
    (hkey : ∀ d ∈ s.selection.getColumns, d.kind = Kind.PARTITION_KEY →
      d.position < (keyComponentsOf cf.metadata key).length) :
    (staticRowOnlyCase s (cf.metadata.group cells) = true ↔
      ((cf.metadata.group cells).getStaticRow ≠ none ∧ (cf.metadata.group cells).rows = [] ∧
        s.restrictions.usesSecondaryIndexing = false ∧
        s.restrictions.hasNoClusteringColumnsRestriction = true)) ∧
    (staticRowOnlyCase s (cf.metadata.group cells) = true →
      ∃ result2 staticRow, (cf.metadata.group cells).getStaticRow = some staticRow ∧
        processColumnFamily s key cf result = .ok result2 ∧
        result2.build = result.build ++ [s.selection.getColumns.map
          (expectedStaticRowValue (keyComponentsOf cf.metadata key) staticRow)]) ∧
    (staticRowOnlyCase s (cf.metadata.group cells) = false →
      ∃ result2, processColumnFamily s key cf result = .ok result2 ∧
        result2.build = result.build ++ (cf.metadata.group cells).rows.map (fun cql3Row =>
          s.selection.getColumns.map
            (expectedRowValue (keyComponentsOf cf.metadata key)
              (cf.metadata.group cells).getStaticRow cql3Row))) ∧
    ((cf.metadata.group cells).getStaticRow ≠ none → (cf.metadata.group cells).rows = [] →
      (s.restrictions.usesSecondaryIndexing = true ∨
        s.restrictions.hasNoClusteringColumnsRestriction = false) →
      processColumnFamily s key cf result = .ok result) := by
  have hiff : staticRowOnlyCase s (cf.metadata.group cells) = true ↔
      ((cf.metadata.group cells).getStaticRow ≠ none ∧ (cf.metadata.group cells).rows = [] ∧
        s.restrictions.usesSecondaryIndexing = false ∧
        s.restrictions.hasNoClusteringColumnsRestriction = true) := by
    simp only [staticRowOnlyCase, Bool.and_eq_true, Bool.not_eq_true', Option.isSome_iff_ne_none,
      List.isEmpty_iff, ne_eq, and_assoc]
  have hunfold := processColumnFamily_unfold s key cf result cells hcells
  refine ⟨hiff, ?_, ?_, ?_⟩
  · intro hcase
    obtain ⟨staticRow, hstatic⟩ := Option.ne_none_iff_exists'.mp (hiff.mp hcase).1
    refine ⟨⟨result.build, some ([] ++ s.selection.getColumns.map
      (expectedStaticRowValue (keyComponentsOf cf.metadata key) staticRow))⟩, staticRow,
      hstatic, ?_, ?_⟩
    · rw [hunfold, if_pos hcase, hstatic, newRow_eq]
      exact foldlM_addStaticRowColumn _ staticRow _ _ _ hkey
    · simp [ResultSetBuilder.build]
  · intro hcase
    obtain ⟨b2, h2, h3⟩ := foldlM_rows (keyComponentsOf cf.metadata key)
      (cf.metadata.group cells).getStaticRow s.selection.getColumns
      (cf.metadata.group cells).rows result (fun _ => hkey)
    refine ⟨b2, ?_, h3⟩
    rw [hunfold, if_neg (by simp [hcase])]
    exact h2
  · intro _ hrows hor
    have hcase : staticRowOnlyCase s (cf.metadata.group cells) = false := by
      cases hc : staticRowOnlyCase s (cf.metadata.group cells)
      · rfl
      · have h4 := hiff.mp hc
        rcases hor with h | h
        · rw [h4.2.2.1] at h; cases h
        · rw [h4.2.2.2] at h; cases h
    rw [hunfold, if_neg (by simp [hcase]), hrows]
    rfl

/-- Witness of `processColumnFamily_branch`: the partition holding only a static cell,
queried with the restriction `ts > 10`, adds no row to the result. -/
theorem processColumnFamily_branch_witness :
    processColumnFamily { scenario.selectAll with restrictions := scenario.tsAbove10 } [5]
        scenario.staticOnly scenario.selectAll.selection.resultSetBuilder =
      .ok scenario.selectAll.selection.resultSetBuilder :=
  (processColumnFamily_branch { scenario.selectAll with restrictions := scenario.tsAbove10 } [5]
      scenario.staticOnly scenario.selectAll.selection.resultSetBuilder
      [{ name := [], value := [42] }] rfl
      (by intro d hd hk; exact Nat.lt_of_le_of_lt (by
            simp only [scenario.selectAll, List.mem_cons, List.mem_singleton,
              List.not_mem_nil, or_false] at hd
            rcases hd with h | h | h | h <;> rw [h] <;> decide) (Nat.lt_succ_self 0))).2.2.2
    (fun h => absurd (congrArg Option.isSome h) (by decide)) rfl (Or.inr rfl)

end cql3

namespace redis

/-! ## Arity of the Redis commands -/

theorem arguments_size_one (req : request) (h : req.arguments_size = 1) :
    ∃ a, req._args = [a] ∧ req.arg 0 (by omega) = a := by
  obtain ⟨cmd, args⟩ := req
  match args, h with
  | [a], _ => exact ⟨a, rfl, rfl⟩

theorem arguments_size_two (req : request) (h : req.arguments_size = 2) :
    ∃ a b, req._args = [a, b] ∧ req.arg 0 (by omega) = a ∧ req.arg 1 (by omega) = b := by
  obtain ⟨cmd, args⟩ := req
  match args, h with
  | [a, b], _ => exact ⟨a, b, rfl, rfl, rfl⟩

theorem get_prepare_spec (req : request) :
    ((∃ c, commands.get.prepare req = .ok c) ↔ req.arguments_size = 1) ∧
    (req.arguments_size ≠ 1 → commands.get.prepare req =
      .error (redis_exception.wrong_arguments_exception 1 req.arguments_size req._command)) ∧
    (∀ key, req._args = [key] → commands.get.prepare req = .ok ⟨req._command, key⟩) := by
  have herr : req.arguments_size ≠ 1 → commands.get.prepare req =
      .error (redis_exception.wrong_arguments_exception 1 req.arguments_size req._command) :=
    fun h => by simp [commands.get.prepare, h, throw, throwThe, MonadExceptOf.throw]
  have hok : ∀ key, req._args = [key] →
      commands.get.prepare req = .ok ⟨req._command, key⟩ := by
    intro key hk
    have hs : req.arguments_size = 1 := by simp [request.arguments_size, hk]
    obtain ⟨a, ha, ha2⟩ := arguments_size_one req hs
    have : a = key := by rw [hk] at ha; simpa using ha.symm
    simp [commands.get.prepare, hs, ha2, this, pure, Except.pure]
  refine ⟨⟨?_, ?_⟩, herr, hok⟩
  · rintro ⟨c, hc⟩
    by_contra hne
    rw [herr hne] at hc
    cases hc
  · intro hs
    obtain ⟨a, ha, _⟩ := arguments_size_one req hs
    exact ⟨_, hok a ha⟩

theorem ttl_prepare_spec (req : request) :
    ((∃ c, commands.ttl.prepare req = .ok c) ↔ req.arguments_size = 1) ∧
    (req.arguments_size ≠ 1 → commands.ttl.prepare req =
      .error (redis_exception.wrong_arguments_exception 1 req.arguments_size req._command)) ∧
    (∀ key, req._args = [key] → commands.ttl.prepare req = .ok ⟨req._command, key⟩) := by
  have herr : req.arguments_size ≠ 1 → commands.ttl.prepare req =
      .error (redis_exception.wrong_arguments_exception 1 req.arguments_size req._command) :=
    fun h => by simp [commands.ttl.prepare, h, throw, throwThe, MonadExceptOf.throw]
  have hok : ∀ key, req._args = [key] →
      commands.ttl.prepare req = .ok ⟨req._command, key⟩ := by
    intro key hk
    have hs : req.arguments_size = 1 := by simp [request.arguments_size, hk]
    obtain ⟨a, ha, ha2⟩ := arguments_size_one req hs
    have : a = key := by rw [hk] at ha; simpa using ha.symm
    simp [commands.ttl.prepare, hs, ha2, this, pure, Except.pure]
  refine ⟨⟨?_, ?_⟩, herr, hok⟩
  · rintro ⟨c, hc⟩
    by_contra hne
    rw [herr hne] at hc
    cases hc
  · intro hs
    obtain ⟨a, ha, _⟩ := arguments_size_one req hs
    exact ⟨_, hok a ha⟩

theorem strlen_prepare_spec (req : request) :
    ((∃ c, commands.strlen.prepare req = .ok c) ↔ req.arguments_size = 1) ∧
    (req.arguments_size ≠ 1 → commands.strlen.prepare req =
      .error (redis_exception.wrong_arguments_exception 1 req.arguments_size req._command)) ∧
    (∀ key, req._args = [key] → commands.strlen.prepare req = .ok ⟨req._command, key⟩) := by
  have herr : req.arguments_size ≠ 1 → commands.strlen.prepare req =
      .error (redis_exception.wrong_arguments_exception 1 req.arguments_size req._command) :=
    fun h => by simp [commands.strlen.prepare, h, throw, throwThe, MonadExceptOf.throw]
  have hok : ∀ key, req._args = [key] →
      commands.strlen.prepare req = .ok ⟨req._command, key⟩ := by
    intro key hk
    have hs : req.arguments_size = 1 := by simp [request.arguments_size, hk]
    obtain ⟨a, ha, ha2⟩ := arguments_size_one req hs
    have : a = key := by rw [hk] at ha; simpa using ha.symm
    simp [commands.strlen.prepare, hs, ha2, this, pure, Except.pure]
  refine ⟨⟨?_, ?_⟩, herr, hok⟩
  · rintro ⟨c, hc⟩
    by_contra hne
    rw [herr hne] at hc
    cases hc
  · intro hs
    obtain ⟨a, ha, _⟩ := arguments_size_one req hs
    exact ⟨_, hok a ha⟩

theorem echo_prepare_spec (req : request) :
    ((∃ c, commands.echo.prepare req = .ok c) ↔ req.arguments_size = 1) ∧
    (req.arguments_size ≠ 1 → commands.echo.prepare req =
      .error (redis_exception.wrong_arguments_exception 1 req.arguments_size req._command)) ∧
    (∀ key, req._args = [key] → commands.echo.prepare req = .ok ⟨req._command, key⟩) := by
  have herr : req.arguments_size ≠ 1 → commands.echo.prepare req =
      .error (redis_exception.wrong_arguments_exception 1 req.arguments_size req._command) :=
    fun h => by simp [commands.echo.prepare, h, throw, throwThe, MonadExceptOf.throw]
  have hok : ∀ key, req._args = [key] →
      commands.echo.prepare req = .ok ⟨req._command, key⟩ := by
    intro key hk
    have hs : req.arguments_size = 1 := by simp [request.arguments_size, hk]
    obtain ⟨a, ha, ha2⟩ := arguments_size_one req hs
    have : a = key := by rw [hk] at ha; simpa using ha.symm
    simp [commands.echo.prepare, hs, ha2, this, pure, Except.pure]
  refine ⟨⟨?_, ?_⟩, herr, hok⟩
  · rintro ⟨c, hc⟩
    by_contra hne
    rw [herr hne] at hc
    cases hc
  · intro hs
    obtain ⟨a, ha, _⟩ := arguments_size_one req hs
    exact ⟨_, hok a ha⟩

theorem hget_prepare_spec (req : request) :
    ((∃ c, commands.hget.prepare req = .ok c) ↔ req.arguments_size = 2) ∧
    (req.arguments_size ≠ 2 → commands.hget.prepare req =
      .error (redis_exception.wrong_arguments_exception 2 req.arguments_size req._command)) ∧
    (∀ key field, req._args = [key, field] →
      commands.hget.prepare req = .ok ⟨req._command, key, field⟩) := by
  have herr : req.arguments_size ≠ 2 → commands.hget.prepare req =
      .error (redis_exception.wrong_arguments_exception 2 req.arguments_size req._command) :=
    fun h => by simp [commands.hget.prepare, h, throw, throwThe, MonadExceptOf.throw]
  have hok : ∀ key field, req._args = [key, field] →
      commands.hget.prepare req = .ok ⟨req._command, key, field⟩ := by
    intro key field hk
    have hs : req.arguments_size = 2 := by simp [request.arguments_size, hk]
    obtain ⟨a, b, ha, ha2, hb2⟩ := arguments_size_two req hs
    have : a = key ∧ b = field := by rw [hk] at ha; simpa [eq_comm] using ha
    simp [commands.hget.prepare, hs, ha2, hb2, this.1, this.2, pure, Except.pure]
  refine ⟨⟨?_, ?_⟩, herr, hok⟩
  · rintro ⟨c, hc⟩
    by_contra hne
    rw [herr hne] at hc
    cases hc
  · intro hs
    obtain ⟨a, b, ha, _⟩ := arguments_size_two req hs
    exact ⟨_, hok a b ha⟩

/-- C9: for each of `get`, `ttl`, `strlen`, `echo` (one argument) and `hget` (two
arguments) and every request, `prepare` succeeds if and only if the request has exactly
the expected number of arguments; otherwise it raises `wrong_arguments_exception` with the
expected count, the actual count and the command name; on success the command holds the
name and the arguments of the request in request order. -/
theorem prepare_arity_spec (req : request) :
    (((∃ c, commands.get.prepare req = .ok c) ↔ req.arguments_size = 1) ∧
      (req.arguments_size ≠ 1 → commands.get.prepare req =
        .error (redis_exception.wrong_arguments_exception 1 req.arguments_size req._command)) ∧
      (∀ key, req._args = [key] → commands.get.prepare req = .ok ⟨req._command, key⟩)) ∧
    (((∃ c, commands.ttl.prepare req = .ok c) ↔ req.arguments_size = 1) ∧
      (req.arguments_size ≠ 1 → commands.ttl.prepare req =
        .error (redis_exception.wrong_arguments_exception 1 req.arguments_size req._command)) ∧
      (∀ key, req._args = [key] → commands.ttl.prepare req = .ok ⟨req._command, key⟩)) ∧
    (((∃ c, commands.strlen.prepare req = .ok c) ↔ req.arguments_size = 1) ∧
      (req.arguments_size ≠ 1 → commands.strlen.prepare req =
        .error (redis_exception.wrong_arguments_exception 1 req.arguments_size req._command)) ∧
      (∀ key, req._args = [key] → commands.strlen.prepare req = .ok ⟨req._command, key⟩)) ∧
    (((∃ c, commands.echo.prepare req = .ok c) ↔ req.arguments_size = 1) ∧
      (req.arguments_size ≠ 1 → commands.echo.prepare req =
        .error (redis_exception.wrong_arguments_exception 1 req.arguments_size req._command)) ∧
      (∀ str, req._args = [str] → commands.echo.prepare req = .ok ⟨req._command, str⟩)) ∧
    (((∃ c, commands.hget.prepare req = .ok c) ↔ req.arguments_size = 2) ∧
      (req.arguments_size ≠ 2 → commands.hget.prepare req =
        .error (redis_exception.wrong_arguments_exception 2 req.arguments_size req._command)) ∧
      (∀ key field, req._args = [key, field] →
        commands.hget.prepare req = .ok ⟨req._command, key, field⟩)) :=
  ⟨get_prepare_spec req, ttl_prepare_spec req, strlen_prepare_spec req, echo_prepare_spec req,
    hget_prepare_spec req⟩

/-! ## `set::prepare` -/

theorem isdigit_not_isspace : ∀ c : UInt8, isdigit c = true → isspace c = false := by
  intro c
  cases c with
  | mk v => revert v; decide

theorem isdigit_not_sign : ∀ c : UInt8, isdigit c = true → c ≠ 45 ∧ c ≠ 43 := by
  intro c
  cases c with
  | mk v => revert v; decide

theorem tolower_eq_e : ∀ c : UInt8, tolower c = 101 ↔ (c = 101 ∨ c = 69) := by
  intro c
  cases c with
  | mk v => revert v; decide

theorem tolower_eq_x : ∀ c : UInt8, tolower c = 120 ↔ (c = 120 ∨ c = 88) := by
  intro c
  cases c with
  | mk v => revert v; decide

theorem isspace_sign : isspace 43 = false ∧ isspace 45 = false := by decide

theorem dropWhile_append_of_head {α : Type} (p : α → Bool) (l1 l2 : List α)
    (h1 : ∀ c ∈ l1, p c = true) (h2 : ∀ c, l2.head? = some c → p c = false) :
    (l1 ++ l2).dropWhile p = l2 := by
  induction l1 with
  | nil =>
    cases l2 with
    | nil => rfl
    | cons c t => simp [List.dropWhile_cons, h2 c rfl]
  | cons a l ih =>
    simp only [List.cons_append, List.dropWhile_cons, h1 a (List.mem_cons_self _ _), ↓reduceIte]
    exact ih (fun c hc => h1 c (List.mem_cons_of_mem _ hc))

theorem takeWhile_append_of_head {α : Type} (p : α → Bool) (l1 l2 : List α)
    (h1 : ∀ c ∈ l1, p c = true) (h2 : ∀ c, l2.head? = some c → p c = false) :
    (l1 ++ l2).takeWhile p = l1 := by
  induction l1 with
  | nil =>
    cases l2 with
    | nil => rfl
    | cons c t => simp [List.takeWhile_cons, h2 c rfl]
  | cons a l ih =>
    simp only [List.cons_append, List.takeWhile_cons, h1 a (List.mem_cons_self _ _), ↓reduceIte]
    rw [ih (fun c hc => h1 c (List.mem_cons_of_mem _ hc))]

theorem head_dropWhile_not {α : Type} (p : α → Bool) (l : List α) (c : α)
    (h : (l.dropWhile p).head? = some c) : p c = false := by
  induction l with
  | nil => simp at h
  | cons a l ih =>
    rw [List.dropWhile_cons] at h
    cases hp : p a
    · simp only [hp, Bool.false_eq_true, ↓reduceIte, List.head?_cons, Option.some.injEq] at h
      rw [← h]; exact hp
    · simp only [hp, ↓reduceIte] at h
      exact ih h

theorem mem_takeWhile_imp {α : Type} (p : α → Bool) (l : List α) (c : α)
    (h : c ∈ l.takeWhile p) : p c = true := by
  induction l with
  | nil => simp at h
  | cons a l ih =>
    rw [List.takeWhile_cons] at h
    cases hp : p a
    · simp [hp] at h
    · simp only [hp, ↓reduceIte, List.mem_cons] at h
      rcases h with h | h
      · rw [h]; exact hp
      · exact ih h

theorem stol_sign (s1 : bytes) :
    ∃ sign : bytes, (sign = [] ∨ sign = [43] ∨ sign = [45]) ∧
      s1 = sign ++ (if s1.head? = some 45 ∨ s1.head? = some 43 then s1.tail else s1) ∧
      (s1.head? = some 45 ↔ sign = [45]) := by
  cases s1 with
  | nil => exact ⟨[], Or.inl rfl, by simp, by simp⟩
  | cons c t =>
    by_cases h45 : c = 45
    · exact ⟨[45], Or.inr (Or.inr rfl), by simp [h45], by simp [h45]⟩
    · by_cases h43 : c = 43
      · exact ⟨[43], Or.inr (Or.inl rfl), by simp [h43], by simp [h43]⟩
      · exact ⟨[], Or.inl rfl, by simp [h45, h43], by simp [h45]⟩

theorem stol_ok_startsWithLong (str : bytes) (v : Int) (h : stol str = .ok v) :
    startsWithLong str v := by
  unfold stol at h
  simp only [] at h
  generalize hs1 : str.dropWhile isspace = s1 at h
  obtain ⟨sign, hsign, hs1eq, hneg⟩ := stol_sign s1
  generalize hs2 : (if s1.head? = some 45 ∨ s1.head? = some 43 then s1.tail else s1) = s2
    at h hs1eq
  generalize hval : (if s1.head? = some 45 then -(digitsValue (s2.takeWhile isdigit) : Int)
    else (digitsValue (s2.takeWhile isdigit) : Int)) = val at h
  by_cases hdigits : s2.takeWhile isdigit = []
  · rw [if_pos hdigits] at h
    cases h
  · rw [if_neg hdigits] at h
    by_cases hrange : val < LONG_MIN ∨ LONG_MAX < val
    · rw [if_pos hrange] at h
      cases h
    · rw [if_neg hrange] at h
      have hv : val = v := by
        simpa only [pure, Except.pure, Except.ok.injEq] using h
      refine ⟨str.takeWhile isspace, sign, s2.takeWhile isdigit, s2.dropWhile isdigit,
        ?_, ?_, hsign, hdigits, ?_, ?_, ?_, ?_, ?_⟩
      · rw [List.append_assoc, List.append_assoc, List.takeWhile_append_dropWhile, ← hs1eq,
          ← hs1, List.takeWhile_append_dropWhile]
      · exact fun c hc => mem_takeWhile_imp _ _ c hc
      · exact fun c hc => mem_takeWhile_imp _ _ c hc
      · exact fun c hc => head_dropWhile_not _ _ c hc
      · rw [← hv, ← hval]
        by_cases h45 : s1.head? = some 45
        · rw [if_pos h45, if_pos (hneg.mp h45)]
        · rw [if_neg h45, if_neg (fun hs => h45 (hneg.mpr hs))]
      · omega
      · omega

theorem stol_of_parts (sign digits rest : bytes) (v : Int)
    (hsign : sign = [] ∨ sign = [43] ∨ sign = [45]) (hne : digits ≠ [])
    (hdigits : ∀ c ∈ digits, isdigit c = true)
    (hrest : ∀ c, rest.head? = some c → isdigit c = false)
    (hdrop : (sign ++ digits ++ rest).dropWhile isspace = sign ++ digits ++ rest)
    (hv : v = (if sign = [45] then -(digitsValue digits : Int) else (digitsValue digits : Int)))
    (hlo : LONG_MIN ≤ v) (hhi : v ≤ LONG_MAX) :
    stol (sign ++ digits ++ rest) = .ok v := by
  obtain ⟨d, ds, hd⟩ := List.exists_cons_of_ne_nil hne
  have hdd : isdigit d = true := hdigits d (by rw [hd]; exact List.mem_cons_self _ _)
  have htake : (digits ++ rest).takeWhile isdigit = digits :=
    takeWhile_append_of_head isdigit digits rest hdigits hrest
  have hrange : ¬ (v < LONG_MIN ∨ LONG_MAX < v) := by omega
  unfold stol
  simp only []
  rw [hdrop]
  rcases hsign with hs | hs | hs
  · have h2 := isdigit_not_sign d hdd
    have h3 : (digits ++ rest).head? = some d := by simp [hd]
    have h4 : sign ++ digits ++ rest = digits ++ rest := by simp [hs]
    have hv2 : v = (digitsValue digits : Int) := by rw [hv]; simp [hs]
    rw [h4]
    simp only [h3, Option.some.injEq, h2.1, h2.2, or_self, ↓reduceIte, htake, hne,
      ← hv2, hrange]
    rfl
  · have h3 : (sign ++ digits ++ rest).head? = some 43 := by simp [hs]
    have h4 : (sign ++ digits ++ rest).tail = digits ++ rest := by simp [hs]
    have hv2 : v = (digitsValue digits : Int) := by rw [hv]; simp [hs]
    have h5 : ¬ ((some 43 : Option UInt8) = some 45) := by decide
    simp only [h3, h5, or_true, false_or, ↓reduceIte, h4, htake, hne, ← hv2, hrange]
    rfl
  · have h3 : (sign ++ digits ++ rest).head? = some 45 := by simp [hs]
    have h4 : (sign ++ digits ++ rest).tail = digits ++ rest := by simp [hs]
    have hv2 : v = -(digitsValue digits : Int) := by rw [hv]; simp [hs]
    simp only [h3, true_or, ↓reduceIte, h4, htake, hne, ← hv2, hrange]
    rfl

theorem stol_of_startsWithLong (str : bytes) (v : Int) (h : startsWithLong str v) :
    stol str = .ok v := by
  obtain ⟨ws, sign, digits, rest, hstr, hws, hsign, hne, hdigits, hrest, hv, hlo, hhi⟩ := h
  obtain ⟨d, ds, hd⟩ := List.exists_cons_of_ne_nil hne
  have hdd : isdigit d = true := hdigits d (by rw [hd]; exact List.mem_cons_self _ _)
  have hhead : ∀ c, (sign ++ digits ++ rest).head? = some c → isspace c = false := by
    intro c hc
    rcases hsign with hs | hs | hs
    · rw [hs, hd] at hc
      simp only [List.nil_append, List.cons_append, List.head?_cons, Option.some.injEq] at hc
      rw [← hc]; exact isdigit_not_isspace d hdd
    · rw [hs] at hc
      simp only [List.cons_append, List.head?_cons, Option.some.injEq] at hc
      rw [← hc]; exact isspace_sign.1
    · rw [hs] at hc
      simp only [List.cons_append, List.head?_cons, Option.some.injEq] at hc
      rw [← hc]; exact isspace_sign.2
  have hdrop0 : (sign ++ digits ++ rest).dropWhile isspace = sign ++ digits ++ rest := by
    have := dropWhile_append_of_head isspace [] (sign ++ digits ++ rest) (by simp) hhead
    simpa using this
  have hdrop : str.dropWhile isspace = sign ++ digits ++ rest := by
    rw [hstr, List.append_assoc, List.append_assoc,
      dropWhile_append_of_head isspace ws (sign ++ (digits ++ rest)) hws
        (by simpa [List.append_assoc] using hhead)]
    simp
  have hmain := stol_of_parts sign digits rest v hsign hne hdigits hrest hdrop0 hv hlo hhi
  unfold stol at hmain ⊢
  simp only [] at hmain ⊢
  rw [hdrop]
  rw [hdrop0] at hmain
  exact hmain

theorem stol_ok_iff (str : bytes) (v : Int) : stol str = .ok v ↔ startsWithLong str v :=
  ⟨stol_ok_startsWithLong str v, stol_of_startsWithLong str v⟩

theorem map_tolower_eq_ex (opt : bytes) :
    opt.map tolower = [101, 120] ↔ equalsIgnoreCaseEx opt := by
  unfold equalsIgnoreCaseEx
  match opt with
  | [] => simp
  | [a] => simp
  | a :: b :: c :: rest => simp
  | [a, b] =>
    simp only [List.map_cons, List.map_nil, List.cons.injEq, and_true, tolower_eq_e,
      tolower_eq_x]
    constructor
    · rintro ⟨ha | ha, hb | hb⟩ <;> simp [ha, hb]
    · rintro (h | h | h | h) <;> simp [h.1, h.2]

theorem set_prepare_two (cmd key value : bytes) :
    commands.set.prepare ⟨cmd, [key, value]⟩ = .ok (commands.set.mk3 cmd key value) := by
  rfl

theorem set_prepare_four (cmd key value opt num : bytes) :
    commands.set.prepare ⟨cmd, [key, value, opt, num]⟩ =
      if opt.map tolower = [101, 120] then
        match stol num with
        | .error _ => .error (redis_exception.invalid_arguments_exception cmd)
        | .ok ttl => .ok (commands.set.mk4 cmd key value ttl)
      else .error (redis_exception.invalid_arguments_exception cmd) := by
  rfl

theorem set_prepare_other (req : request) (h2 : req.arguments_size ≠ 2)
    (h4 : req.arguments_size ≠ 4) :
    commands.set.prepare req =
      .error (redis_exception.invalid_arguments_exception req._command) := by
  simp [commands.set.prepare, h2, h4, throw, throwThe, MonadExceptOf.throw]

/-- C10 (as stated) fails: `SET k v EX 10x` is prepared with a time-to-live of 10 although
its fourth argument `10x` is not an integer; so does `SET k v EX " 7"` with leading white
space. -/
theorem set_prepare_accepts_trailing_characters :
    commands.set.prepare ⟨[115, 101, 116], [[107], [118], [69, 88], [49, 48, 120]]⟩ =
      .ok (commands.set.mk4 [115, 101, 116] [107] [118] 10) ∧
    isInteger [49, 48, 120] = false ∧
    commands.set.prepare ⟨[115, 101, 116], [[107], [118], [69, 88], [32, 55]]⟩ =
      .ok (commands.set.mk4 [115, 101, 116] [107] [118] 7) ∧
    isInteger [32, 55] = false := by
  refine ⟨rfl, ?_, rfl, ?_⟩ <;> decide

/-- C10 (amended): `set::prepare` succeeds exactly on a request with two arguments (key,
value; the command is built without time-to-live), or with four arguments whose third
equals `ex` ignoring ASCII case and whose fourth starts, after optional white space and an
optional sign, with a run of decimal digits whose value fits a `long`; the time-to-live is
that value and what follows the digits is ignored.  Every other request raises
`invalid_arguments_exception` with the command name. -/
theorem set_prepare_spec (req : request) :
    (∀ c, commands.set.prepare req = .ok c ↔
      ((∃ key value, req._args = [key, value] ∧ c = commands.set.mk3 req._command key value) ∨
       (∃ key value opt num ttl, req._args = [key, value, opt, num] ∧
          equalsIgnoreCaseEx opt ∧ startsWithLong num ttl ∧
          c = commands.set.mk4 req._command key value ttl))) ∧
    (∀ e, commands.set.prepare req = .error e →
      e = redis_exception.invalid_arguments_exception req._command) := by
  obtain ⟨cmd, args⟩ := req
  match args with
  | [] =>
    have h := set_prepare_other ⟨cmd, []⟩ (by simp [request.arguments_size]) (by simp [request.arguments_size])
    exact ⟨fun c => by simp [h], fun e he => by rw [h] at he; cases he; rfl⟩
  | [a] =>
    have h := set_prepare_other ⟨cmd, [a]⟩ (by simp [request.arguments_size]) (by simp [request.arguments_size])
    exact ⟨fun c => by simp [h], fun e he => by rw [h] at he; cases he; rfl⟩
  | [a, b, c3] =>
    have h := set_prepare_other ⟨cmd, [a, b, c3]⟩ (by simp [request.arguments_size]) (by simp [request.arguments_size])
    exact ⟨fun c => by simp [h], fun e he => by rw [h] at he; cases he; rfl⟩
  | a :: b :: c3 :: d :: x :: rest =>
    have h := set_prepare_other ⟨cmd, a :: b :: c3 :: d :: x :: rest⟩
      (by simp [request.arguments_size]) (by simp [request.arguments_size])
    exact ⟨fun c => by simp [h], fun e he => by rw [h] at he; cases he; rfl⟩
  | [key, value] =>
    have h := set_prepare_two cmd key value
    refine ⟨fun c => ?_, fun e he => by rw [h] at he; cases he⟩
    rw [h]
    constructor
    · intro hc
      simp only [Except.ok.injEq] at hc
      exact Or.inl ⟨key, value, rfl, hc.symm⟩
    · rintro (⟨k, v, hkv, hc⟩ | ⟨k, v, o, n, ttl, hargs, _⟩)
      · simp only [List.cons.injEq, and_true] at hkv
        rw [hc, ← hkv.1, ← hkv.2]
      · simp at hargs
  | [key, value, opt, num] =>
    have h := set_prepare_four cmd key value opt num
    rw [h]
    by_cases hopt : opt.map tolower = [101, 120]
    · have hex := (map_tolower_eq_ex opt).mp hopt
      rw [if_pos hopt]
      cases hst : stol num with
      | error err =>
        refine ⟨fun c => ?_, fun e he => by cases he; rfl⟩
        constructor
        · intro hc; cases hc
        · rintro (⟨k, v, hkv, _⟩ | ⟨k, v, o, n, ttl, hargs, _, hlong, _⟩)
          · simp at hkv
          · simp only [List.cons.injEq, and_true] at hargs
            rw [← hargs.2.2.2] at hlong
            rw [(stol_ok_iff num ttl).mpr hlong] at hst
            cases hst
      | ok ttl =>
        refine ⟨fun c => ?_, fun e he => by cases he⟩
        constructor
        · intro hc
          simp only [Except.ok.injEq] at hc
          exact Or.inr ⟨key, value, opt, num, ttl, rfl, hex, (stol_ok_iff num ttl).mp hst,
            hc.symm⟩
        · rintro (⟨k, v, hkv, _⟩ | ⟨k, v, o, n, ttl2, hargs, _, hlong, hc⟩)
          · simp at hkv
          · simp only [List.cons.injEq, and_true] at hargs
            obtain ⟨hk, hv, ho, hn⟩ := hargs
            rw [← hn] at hlong
            rw [(stol_ok_iff num ttl2).mpr hlong] at hst
            simp only [Except.ok.injEq] at hst
            rw [hc, ← hk, ← hv, hst]
    · rw [if_neg hopt]
      refine ⟨fun c => ?_, fun e he => by cases he; rfl⟩
      constructor
      · intro hc; cases hc
      · rintro (⟨k, v, hkv, _⟩ | ⟨k, v, o, n, ttl, hargs, hex, _, _⟩)
        · simp at hkv
        · simp only [List.cons.injEq, and_true] at hargs
          rw [← hargs.2.2.1] at hex
          exact absurd ((map_tolower_eq_ex opt).mpr hex) hopt

/-! ## Replies of `get`, `hget` and `ttl` -/

/-- C11: when the storage read of the key (of the field, for `hget`) completes,
`get::execute` and `hget::execute` reply with the nil string if the read has no result and
with exactly the stored string if it has one; in both cases the reply is a value, not an
error.  Each command depends on its own read only. -/
theorem get_hget_execute_spec (proxy : storage_proxy) (options : redis_options)
    (g : commands.get) (h : commands.hget) :
    (∀ rg, proxy.read_strings options g._key = .ok rg →
      (rg.has_result = false →
        commands.get.execute proxy options g = .ok redis_message.nil) ∧
      (rg.has_result = true →
        commands.get.execute proxy options g =
          .ok (redis_message.make_strings_result rg.result))) ∧
    (∀ rh, proxy.read_strings_from_hash options h._key h._field = .ok rh →
      (rh.has_result = false →
        commands.hget.execute proxy options h = .ok redis_message.nil) ∧
      (rh.has_result = true →
        commands.hget.execute proxy options h =
          .ok (redis_message.make_strings_result rh.result))) := by
  refine ⟨fun rg hread => ⟨?_, ?_⟩, fun rh hreadh => ⟨?_, ?_⟩⟩ <;> intro hr
  · simp [commands.get.execute, hread, hr, bind, Except.bind, pure, Except.pure]
  · simp [commands.get.execute, hread, hr, bind, Except.bind, pure, Except.pure]
  · simp [commands.hget.execute, hreadh, hr, bind, Except.bind, pure, Except.pure]
  · simp [commands.hget.execute, hreadh, hr, bind, Except.bind, pure, Except.pure]

/-- Witness of `get_hget_execute_spec`: `GET k` replies `v`, and `HGET h g` on a hash
without field `g` replies nil. -/
theorem get_hget_execute_spec_witness :
    commands.get.execute scenario.storage scenario.options ⟨[103, 101, 116], [107]⟩ =
      .ok (redis_message.make_strings_result [118]) ∧
    commands.hget.execute scenario.storage scenario.options ⟨[104, 103, 101, 116], [104], [103]⟩ =
      .ok redis_message.nil :=
  have h := get_hget_execute_spec scenario.storage scenario.options ⟨[103, 101, 116], [107]⟩
    ⟨[104, 103, 101, 116], [104], [103]⟩
  ⟨(h.1 ⟨true, [118], true, 100⟩ rfl).2 rfl, (h.2 ⟨false, [], false, 0⟩ rfl).1 rfl⟩

/-- C12: when the storage read of the key completes, `ttl::execute` replies with the
number -2 if the key does not exist, with -1 if it exists without time-to-live, and with
the count of its time-to-live if it exists and has one; exactly one of the three cases
applies to every read result. -/
theorem ttl_execute_spec (proxy : storage_proxy) (options : redis_options)
    (cmd : commands.ttl) (r : strings_result)
    (hread : proxy.read_strings options cmd._key = .ok r) :
    (r.has_result = false →
      commands.ttl.execute proxy options cmd = .ok (redis_message.number (-2))) ∧
    (r.has_result = true → r.has_ttl = false →
      commands.ttl.execute proxy options cmd = .ok (redis_message.number (-1))) ∧
    (r.has_result = true → r.has_ttl = true →
      commands.ttl.execute proxy options cmd = .ok (redis_message.number r.ttl_count)) ∧
    (∃ n, commands.ttl.execute proxy options cmd = .ok (redis_message.number n) ∧
      (n = -2 ∨ n = -1 ∨ n = r.ttl_count)) ∧
    ((r.has_result = false ∧ ¬ (r.has_result = true ∧ r.has_ttl = false) ∧
        ¬ (r.has_result = true ∧ r.has_ttl = true)) ∨
      (¬ r.has_result = false ∧ (r.has_result = true ∧ r.has_ttl = false) ∧
        ¬ (r.has_result = true ∧ r.has_ttl = true)) ∨
      (¬ r.has_result = false ∧ ¬ (r.has_result = true ∧ r.has_ttl = false) ∧
        (r.has_result = true ∧ r.has_ttl = true))) := by
  refine ⟨?_, ?_, ?_, ?_, ?_⟩
  · intro hr
    simp [commands.ttl.execute, hread, hr, bind, Except.bind, pure, Except.pure]
  · intro hr ht
    simp [commands.ttl.execute, hread, hr, ht, bind, Except.bind, pure, Except.pure]
  · intro hr ht
    simp [commands.ttl.execute, hread, hr, ht, bind, Except.bind, pure, Except.pure]
  · cases hr : r.has_result <;> cases ht : r.has_ttl <;>
      simp [commands.ttl.execute, hread, hr, ht, bind, Except.bind, pure, Except.pure]
  · cases r.has_result <;> cases r.has_ttl <;> simp

/-- Witness of `ttl_execute_spec`: `TTL k` replies 100 and `TTL j`, for a key that does not
exist, replies -2. -/
theorem ttl_execute_spec_witness :
    commands.ttl.execute scenario.storage scenario.options ⟨[116, 116, 108], [107]⟩ =
      .ok (redis_message.number 100) ∧
    commands.ttl.execute scenario.storage scenario.options ⟨[116, 116, 108], [106]⟩ =
      .ok (redis_message.number (-2)) :=
  ⟨(ttl_execute_spec scenario.storage scenario.options ⟨[116, 116, 108], [107]⟩
      ⟨true, [118], true, 100⟩ rfl).2.2.1 rfl rfl,
   (ttl_execute_spec scenario.storage scenario.options ⟨[116, 116, 108], [106]⟩
      ⟨false, [], false, 0⟩ rfl).1 rfl⟩

/-! ## Replies of `del`, `select` and `exists` -/

theorem del_execute_replies_key_count (proxy : storage_proxy) (options : redis_options)
    (cmd : commands.del) (hdelete : proxy.delete_objects options cmd._keys = .ok ()) :
    commands.del.execute proxy options cmd = .ok (redis_message.number cmd._keys.length) := by
  simp [commands.del.execute, hdelete, bind, Except.bind, pure, Except.pure]

/-- C14 (the code at the failing input): `DEL j`, for a key `j` that the storage does not
hold, is prepared and replies 1, the number of keys given, although no key was deleted;
`DEL k k`, for the single existing key `k`, replies 2. -/
theorem del_execute_counts_given_keys :
    commands.del.prepare ⟨[100, 101, 108], [[106]]⟩ = .ok ⟨[100, 101, 108], [[106]]⟩ ∧
    scenario.storage.read_strings scenario.options [106] = .ok ⟨false, [], false, 0⟩ ∧
    commands.del.execute scenario.storage scenario.options ⟨[100, 101, 108], [[106]]⟩ =
      .ok (redis_message.number 1) ∧
    commands.del.execute scenario.storage scenario.options ⟨[100, 101, 108], [[107], [107]]⟩ =
      .ok (redis_message.number 2) := by
  decide

/-- C15 (as stated) fails for `select::prepare`: `SELECT 1x` is prepared with index 1
although its argument `1x` is not an integer. -/
theorem select_prepare_accepts_trailing_characters :
    commands.select.prepare ⟨[115, 101, 108, 101, 99, 116], [[49, 120]]⟩ =
      .ok ⟨[115, 101, 108, 101, 99, 116], 1⟩ ∧
    isInteger [49, 120] = false := by
  refine ⟨rfl, ?_⟩
  decide

theorem static_cast_size_t_of_nonneg (x : Int) (h0 : 0 ≤ x) (hmax : x ≤ LONG_MAX) :
    static_cast_size_t x = x.toNat := by
  unfold static_cast_size_t
  unfold LONG_MAX at hmax
  rw [Int.emod_eq_of_lt h0 (by omega)]

theorem select_prepare_one (cmd arg : bytes) :
    commands.select.prepare ⟨cmd, [arg]⟩ =
      match stol arg with
      | .error _ => .error redis_exception.invalid_db_index_exception
      | .ok index => .ok ⟨cmd, index⟩ := by
  rfl

/-- C15 (amended): for every index (a `long`) and every configured database count,
`select::execute` raises `invalid_db_index_exception` if and only if the index is negative
or not below the total database count, and then leaves the options unchanged; otherwise it
sets the keyspace name to `REDIS_` followed by the decimal index and replies ok.
`select::prepare` raises `invalid_db_index_exception` when its single argument does not
start, after optional white space and an optional sign, with a run of decimal digits whose
value fits a `long`; otherwise the index is that value and what follows the digits is
ignored. -/
theorem select_spec (options : redis_options) (cmd : commands.select) (req : request)
    (hlong : cmd._index ≤ LONG_MAX) :
    ((commands.select.execute options cmd).1 =
        .error redis_exception.invalid_db_index_exception ↔
      (cmd._index < 0 ∨ (options.get_total_redis_db_count : Int) ≤ cmd._index)) ∧
    ((cmd._index < 0 ∨ (options.get_total_redis_db_count : Int) ≤ cmd._index) →
      commands.select.execute options cmd =
        (.error redis_exception.invalid_db_index_exception, options)) ∧
    (0 ≤ cmd._index → cmd._index < (options.get_total_redis_db_count : Int) →
      commands.select.execute options cmd =
        (.ok redis_message.ok,
          options.set_keyspace_name ("REDIS_" ++ toString cmd._index.toNat))) ∧
    (∀ arg, req._args = [arg] →
      ((¬ ∃ index, startsWithLong arg index) →
        commands.select.prepare req = .error redis_exception.invalid_db_index_exception) ∧
      (∀ index, startsWithLong arg index →
        commands.select.prepare req = .ok ⟨req._command, index⟩)) := by
  have hbad : (cmd._index < 0 ∨ (options.get_total_redis_db_count : Int) ≤ cmd._index) →
      commands.select.execute options cmd =
        (.error redis_exception.invalid_db_index_exception, options) := by
    intro h
    have hc : cmd._index < 0 ∨
        static_cast_size_t cmd._index ≥ options.get_total_redis_db_count := by
      rcases h with h | h
      · exact Or.inl h
      · by_cases h0 : cmd._index < 0
        · exact Or.inl h0
        · right
          rw [static_cast_size_t_of_nonneg _ (by omega) hlong]
          omega
    unfold commands.select.execute
    rw [if_pos hc]
    rfl
  have hgood : 0 ≤ cmd._index → cmd._index < (options.get_total_redis_db_count : Int) →
      commands.select.execute options cmd =
        (.ok redis_message.ok,
          options.set_keyspace_name ("REDIS_" ++ toString cmd._index.toNat)) := by
    intro h0 hlt
    have hcast := static_cast_size_t_of_nonneg _ h0 hlong
    have hc : ¬ (cmd._index < 0 ∨
        static_cast_size_t cmd._index ≥ options.get_total_redis_db_count) := by
      rw [hcast]
      omega
    unfold commands.select.execute
    rw [if_neg hc, hcast]
    rfl
  refine ⟨⟨?_, fun h => by rw [hbad h]⟩, hbad, hgood, ?_⟩
  · intro herr
    by_contra hcon
    have h0 : 0 ≤ cmd._index := by omega
    have hlt : cmd._index < (options.get_total_redis_db_count : Int) := by omega
    rw [hgood h0 hlt] at herr
    cases herr
  · intro arg hargs
    obtain ⟨name, args⟩ := req
    simp only at hargs
    subst hargs
    rw [select_prepare_one]
    constructor
    · intro hnone
      cases hst : stol arg with
      | error e => rfl
      | ok index => exact absurd ⟨index, (stol_ok_iff arg index).mp hst⟩ hnone
    · intro index hindex
      rw [(stol_ok_iff arg index).mpr hindex]

/-- Witness of `select_spec`: `SELECT 12` with 16 databases sets the keyspace `REDIS_12`,
and `SELECT 16` is rejected with the options unchanged. -/
theorem select_spec_witness :
    commands.select.execute scenario.options ⟨[], 12⟩ =
      (.ok redis_message.ok, { _ks_name := "REDIS_12", _total_redis_db_count := 16 }) ∧
    commands.select.execute scenario.options ⟨[], 16⟩ =
      (.error redis_exception.invalid_db_index_exception, scenario.options) :=
  ⟨(select_spec scenario.options ⟨[], 12⟩ ⟨[], []⟩ (by decide)).2.2.1
      (by decide) (by decide),
   (select_spec scenario.options ⟨[], 16⟩ ⟨[], []⟩ (by decide)).2.1
      (Or.inr (by decide))⟩

theorem count_key_ok (proxy : storage_proxy) (options : redis_options)
    (cmd : commands.exists) (key : bytes) (r : strings_result)
    (hread : proxy.read_strings options key = .ok r) :
    commands.exists.count_key proxy options cmd key =
      .ok { cmd with _count := cmd._count + (if r.has_result then 1 else 0) } := by
  cases hr : r.has_result <;>
    simp [commands.exists.count_key, hread, hr, bind, Except.bind, pure, Except.pure]

theorem foldlM_count_key (proxy : storage_proxy) (options : redis_options)
    (res : bytes → strings_result) (keys : List bytes) (cmd : commands.exists)
    (hread : ∀ key ∈ keys, proxy.read_strings options key = .ok (res key)) :
    keys.foldlM (commands.exists.count_key proxy options) cmd =
      .ok { cmd with _count := cmd._count + keys.countP (fun key => (res key).has_result) } := by
  induction keys generalizing cmd with
  | nil => simp [pure, Except.pure]
  | cons key rest ih =>
    have h1 := count_key_ok proxy options cmd key (res key) (hread key (List.mem_cons_self _ _))
    have h2 := ih { cmd with _count := cmd._count + (if (res key).has_result then 1 else 0) }
      (fun k hk => hread k (List.mem_cons_of_mem _ hk))
    simp only [List.foldlM_cons, h1, bind, Except.bind, h2, List.countP_cons]
    congr 2
    omega

theorem exists_prepare_spec (req : request) :
    (req.arguments_size = 0 → commands.exists.prepare req =
      .error (redis_exception.wrong_arguments_exception 1 0 req._command)) ∧
    (req.arguments_size ≠ 0 → commands.exists.prepare req =
      .ok (commands.exists.make req._command req._args)) := by
  constructor
  · intro h
    simp [commands.exists.prepare, h, throw, throwThe, MonadExceptOf.throw]
  · intro h
    have : ¬ req.arguments_size < 1 := by omega
    simp [commands.exists.prepare, this, pure, Except.pure]

/-- C16: for every request with a non-empty list of keys whose reads complete,
`exists::prepare` builds the command and `exists::execute` on it replies with the number
of positions of the list whose key has a stored value: a key given several times and
present counts once per position, and the reply lies between 0 and the number of
arguments.  `exists::prepare` rejects a request exactly when it has no argument. -/
theorem exists_spec (proxy : storage_proxy) (options : redis_options) (req : request)
    (res : bytes → strings_result) (hkeys : req._args ≠ [])
    (hread : ∀ key ∈ req._args, proxy.read_strings options key = .ok (res key)) :
    (∃ cmd cmd2 reply, commands.exists.prepare req = .ok cmd ∧ cmd._keys = req._args ∧
      commands.exists.execute proxy options cmd = .ok (redis_message.number reply, cmd2) ∧
      reply = (req._args.countP (fun key => (res key).has_result) : Nat) ∧
      0 ≤ reply ∧ reply ≤ (req.arguments_size : Int) ∧
      (∀ key, (res key).has_result = true → (req._args.count key : Int) ≤ reply)) ∧
    (∀ r : request, (∃ e, commands.exists.prepare r = .error e) ↔ r.arguments_size = 0) := by
  have hsize : req.arguments_size ≠ 0 := by
    simpa [request.arguments_size] using hkeys
  have hfold := foldlM_count_key proxy options res req._args
    (commands.exists.make req._command req._args) hread
  refine ⟨⟨commands.exists.make req._command req._args,
    { commands.exists.make req._command req._args with
      _count := req._args.countP (fun key => (res key).has_result) },
    ((req._args.countP (fun key => (res key).has_result) : Nat) : Int),
    (exists_prepare_spec req).2 hsize, rfl, ?_, rfl, ?_, ?_, ?_⟩, ?_⟩
  · unfold commands.exists.execute
    have hk : (commands.exists.make req._command req._args)._keys = req._args := rfl
    rw [hk, hfold]
    simp only [bind, Except.bind, pure, Except.pure, commands.exists.make, Nat.zero_add]
  · omega
  · have := List.countP_le_length (fun key => (res key).has_result) (l := req._args)
    simp only [request.arguments_size]
    omega
  · intro key hkey
    have : req._args.count key ≤ req._args.countP (fun key => (res key).has_result) := by
      unfold List.count
      apply List.countP_mono_left
      intro k _ hk
      have : k = key := by simpa using hk
      rw [this]; exact hkey
    omega
  · intro r
    constructor
    · rintro ⟨e, he⟩
      by_contra hne
      rw [(exists_prepare_spec r).2 hne] at he
      cases he
    · intro h0
      exact ⟨_, (exists_prepare_spec r).1 h0⟩

/-- Witness of `exists_spec`: `EXISTS k j k`, where only `k` is stored, replies 2. -/
theorem exists_spec_witness :
    ∃ cmd cmd2, commands.exists.prepare ⟨[101], [[107], [106], [107]]⟩ = .ok cmd ∧
      commands.exists.execute scenario.storage scenario.options cmd =
        .ok (redis_message.number 2, cmd2) := by
  obtain ⟨⟨cmd, cmd2, reply, h1, _, h3, h4, _⟩, _⟩ :=
    exists_spec scenario.storage scenario.options ⟨[101], [[107], [106], [107]]⟩
      (fun key => if key = [107] then ⟨true, [118], true, 100⟩ else ⟨false, [], false, 0⟩)
      (by decide)
      (by intro key _; by_cases hk : key = [107] <;> simp [scenario.storage, hk, pure, Except.pure])
  refine ⟨cmd, cmd2, h1, ?_⟩
  rw [h3, h4]
  rfl

end redis
